import Mathlib

/-!
Shallow embedding of the order-matching and accounting engine of
`tutorial_1/server/server.js` (the authoritative variant cited by the claims;
the `server/server.js` variants share `updatePosition`, `matchOrders`,
`canPlaceOrder` and `settleContract` verbatim).

Modelling conventions:
* JS numbers are modelled as `Rat` (prices, cost, cash, PnL) and `Int`
  (quantities/sizes, which the server validates to be integers).
* JS objects keyed by player name (`positions`, `players`) are modelled as
  association lists `List (String × _)`; JS object-key assignment replaces the
  existing entry in place or appends a fresh one, which `setFirstPos` /
  `setPlayerEntry` reproduce.
* `Array.prototype.sort` with the numeric comparators of the source is a
  stable sort under a total preorder; `List.insertionSort` is stable, so the
  result is identical.
* Wall-clock `timestamp` fields (from `Date.now()`) are omitted: no engine
  logic reads them.
* In `addPlayer` the source creates a position object without a `cash` field;
  `ensurePosition` backfills `cash = 0` before any use, so the model creates
  it with `cash := 0` directly.
-/

inductive Side where
  | bid
  | ask
deriving DecidableEq, Repr

structure Order where
  id : Nat
  player : String
  side : Side
  price : Rat
  size : Int
deriving DecidableEq, Repr

structure Trade where
  id : Nat
  buyer : String
  seller : String
  price : Rat
  size : Int
deriving DecidableEq, Repr

structure Position where
  quantity : Int
  totalCost : Rat
  realizedPnL : Rat
  cash : Rat
deriving DecidableEq, Repr

structure Player where
  siblingCount : Rat
  revealed : Bool
deriving DecidableEq, Repr

structure PriceHistoryEntry where
  turn : Nat
  midPrice : Option Rat
deriving DecidableEq, Repr

structure GameState where
  players : List (String × Player)
  orders : List Order
  trades : List Trade
  positions : List (String × Position)
  orderIdCounter : Nat
  settledPrice : Option Rat
  turnOrder : List String
  currentTurnIndex : Int
  priceHistory : List PriceHistoryEntry
deriving DecidableEq, Repr

/-- The aggregate root: game state plus the monotone version counter. -/
structure EngineState where
  game : GameState
  version : Nat
deriving DecidableEq, Repr

-- ## Position ledger (source: `ensurePosition`, `updatePosition`)

def zeroPosition : Position := { quantity := 0, totalCost := 0, realizedPnL := 0, cash := 0 }

def lookupPos (ps : List (String × Position)) (name : String) : Option Position :=
  (ps.find? (fun e => e.1 == name)).map (·.2)

def setFirstPos : List (String × Position) → String → Position → List (String × Position)
  | [], _, _ => []
  | e :: rest, name, v => if e.1 = name then (name, v) :: rest else e :: setFirstPos rest name v

def ensurePosition (ps : List (String × Position)) (name : String) :
    List (String × Position) :=
  if (lookupPos ps name).isSome then ps else ps ++ [(name, zeroPosition)]

/-- Per-position effect of `updatePosition(player, quantity, price)` once the
position record exists.  Faithful to the source: a positive quantity (buy)
always extends `totalCost`/`quantity`; a non-positive quantity (sell) realizes
PnL only against a positive (long) `quantity`, with flip-through-zero opening
the residual short at the trade price. -/
def applyPosition (pos : Position) (quantity : Int) (price : Rat) : Position :=
  let pos := { pos with cash := pos.cash - (quantity : Rat) * price }
  if 0 < quantity then
    { pos with totalCost := pos.totalCost + (quantity : Rat) * price,
               quantity := pos.quantity + quantity }
  else
    let sellSize : Int := |quantity|
    if 0 < pos.quantity then
      let avgCost : Rat := pos.totalCost / (pos.quantity : Rat)
      let closedSize : Int := min sellSize pos.quantity
      let pnl : Rat := (closedSize : Rat) * (price - avgCost)
      let pos := { pos with realizedPnL := pos.realizedPnL + pnl,
                            quantity := pos.quantity - closedSize,
                            totalCost := pos.totalCost - (closedSize : Rat) * avgCost }
      if closedSize < sellSize then
        let shortSize : Int := sellSize - closedSize
        { pos with quantity := pos.quantity - shortSize,
                   totalCost := pos.totalCost - (shortSize : Rat) * price }
      else pos
    else
      { pos with quantity := pos.quantity - sellSize,
                 totalCost := pos.totalCost - (sellSize : Rat) * price }

def updatePosition (ps : List (String × Position)) (player : String)
    (quantity : Int) (price : Rat) : List (String × Position) :=
  match lookupPos (ensurePosition ps player) player with
  | some pos => setFirstPos (ensurePosition ps player) player (applyPosition pos quantity price)
  | none => ensurePosition ps player

-- ## Best bid / best ask and admission control (source: `getBestBidAsk`,
-- `getMidPrice`, `canPlaceOrder`)

/-- Comparator `(a, b) => a.price - b.price || a.id - b.id` (ascending). -/
def priceAscend (a b : Order) : Prop :=
  a.price < b.price ∨ (a.price = b.price ∧ a.id ≤ b.id)

/-- Comparator `(a, b) => b.price - a.price || a.id - b.id` (descending). -/
def priceDescend (a b : Order) : Prop :=
  b.price < a.price ∨ (a.price = b.price ∧ a.id ≤ b.id)

instance : DecidableRel priceAscend := fun a b => by
  unfold priceAscend; infer_instance

instance : DecidableRel priceDescend := fun a b => by
  unfold priceDescend; infer_instance

instance : IsTotal Order priceAscend where
  total a b := by
    unfold priceAscend
    rcases lt_trichotomy a.price b.price with h | h | h
    · exact Or.inl (Or.inl h)
    · rcases Nat.le_total a.id b.id with h' | h'
      · exact Or.inl (Or.inr ⟨h, h'⟩)
      · exact Or.inr (Or.inr ⟨h.symm, h'⟩)
    · exact Or.inr (Or.inl h)

instance : IsTrans Order priceAscend where
  trans a b c hab hbc := by
    unfold priceAscend at *
    rcases hab with h | ⟨h, h'⟩ <;> rcases hbc with h2 | ⟨h2, h2'⟩
    · exact Or.inl (h.trans h2)
    · exact Or.inl (h2 ▸ h)
    · exact Or.inl (h ▸ h2)
    · exact Or.inr ⟨h.trans h2, h'.trans h2'⟩

instance : IsTotal Order priceDescend where
  total a b := by
    unfold priceDescend
    rcases lt_trichotomy a.price b.price with h | h | h
    · exact Or.inr (Or.inl h)
    · rcases Nat.le_total a.id b.id with h' | h'
      · exact Or.inl (Or.inr ⟨h, h'⟩)
      · exact Or.inr (Or.inr ⟨h.symm, h'⟩)
    · exact Or.inl (Or.inl h)

instance : IsTrans Order priceDescend where
  trans a b c hab hbc := by
    unfold priceDescend at *
    rcases hab with h | ⟨h, h'⟩ <;> rcases hbc with h2 | ⟨h2, h2'⟩
    · exact Or.inl (h2.trans h)
    · exact Or.inl (h2 ▸ h)
    · exact Or.inl (h ▸ h2)
    · exact Or.inr ⟨h.trans h2, h'.trans h2'⟩

def bidsSorted (orders : List Order) : List Order :=
  List.insertionSort priceDescend (orders.filter (fun o => o.side == Side.bid))

def asksSorted (orders : List Order) : List Order :=
  List.insertionSort priceAscend (orders.filter (fun o => o.side == Side.ask))

def bestBid (orders : List Order) : Option Rat := (bidsSorted orders).head?.map (·.price)

def bestAsk (orders : List Order) : Option Rat := (asksSorted orders).head?.map (·.price)

def getMidPrice (orders : List Order) : Option Rat :=
  match bestBid orders, bestAsk orders with
  | some bb, some ba => some ((bb + ba) / 2)
  | _, _ => none

/-- The tighten-or-trade admission check, from `canPlaceOrder(side, price)`. -/
def canPlaceOrder (orders : List Order) (side : Side) (price : Rat) : Bool :=
  match side with
  | Side.bid =>
    match bestBid orders with
    | none => true
    | some bb =>
      if bb < price then true
      else
        match bestAsk orders with
        | some ba => decide (ba ≤ price)
        | none => false
  | Side.ask =>
    match bestAsk orders with
    | none => true
    | some ba =>
      if price < ba then true
      else
        match bestBid orders with
        | some bb => decide (price ≤ bb)
        | none => false

-- ## Matching engine (source: `matchOrders`, `executeMarketOrder`)

/-- Price-compatibility filter of `matchOrders`: opposite side, and for a bid
aggressor `o.price <= newOrder.price`, for an ask `o.price >= newOrder.price`. -/
def compatB (side : Side) (price : Rat) (o : Order) : Bool :=
  (o.side != side) &&
    (match side with
     | Side.bid => decide (o.price ≤ price)
     | Side.ask => decide (price ≤ o.price))

/-- Sort relation used on the opposite side: best ask first for a bid
aggressor, best bid first for an ask aggressor (ties by smallest id). -/
def oppRel (side : Side) : Order → Order → Prop :=
  match side with
  | Side.bid => priceAscend
  | Side.ask => priceDescend

instance (side : Side) : DecidableRel (oppRel side) := fun a b => by
  cases side <;> (unfold oppRel; infer_instance)

instance (side : Side) : IsTotal Order (oppRel side) := by
  cases side <;> (unfold oppRel; infer_instance)

instance (side : Side) : IsTrans Order (oppRel side) := by
  cases side <;> (unfold oppRel; infer_instance)

/-- Accumulator of the matching loop: the global state, the aggressor's
remaining size, and the trades emitted so far in this call. -/
structure MatchAcc where
  g : GameState
  remaining : Int
  trades : List Trade
deriving DecidableEq, Repr

/-- The trade object built in the loop body: priced at the resting (passive)
order's price, sized `min(remaining, order.size)`, with
`id = gameState.trades.length + 1`. -/
def emittedTrade (side : Side) (player : String) (acc : MatchAcc) (o : Order) : Trade :=
  { id := acc.g.trades.length + 1
    buyer := if side = Side.bid then player else o.player
    seller := if side = Side.bid then o.player else player
    price := o.price
    size := min acc.remaining o.size }

/-- The book update of the loop body: `order.size -= tradeSize` (applied by
id, mirroring the JS aliasing of the captured reference into the book),
followed by removal of the order when its size reached 0. -/
def bookAfterFill (orders : List Order) (o : Order) (tradeSize : Int) : List Order :=
  let orders1 := orders.map
    (fun x => if x.id = o.id then { x with size := x.size - tradeSize } else x)
  if o.size - tradeSize = 0 then orders1.filter (fun x => x.id != o.id) else orders1

/-- The ledger update of the loop body: `updatePosition(buyer, +size, price)`
then `updatePosition(seller, -size, price)`. -/
def ledgerAfterFill (ps : List (String × Position)) (t : Trade) :
    List (String × Position) :=
  updatePosition (updatePosition ps t.buyer t.size t.price) t.seller (-t.size) t.price

/-- One iteration of the matching loop body shared by `matchOrders` and
`executeMarketOrder`: emit a trade at the resting order's price for
`min(remaining, order.size)`, update both ledger sides, shrink the resting
order in the book and drop it at size 0. -/
def matchStep (side : Side) (player : String) (acc : MatchAcc) (o : Order) : MatchAcc :=
  if acc.remaining ≤ 0 then acc
  else
    let trade := emittedTrade side player acc o
    { g := { acc.g with
        trades := acc.g.trades ++ [trade]
        positions := ledgerAfterFill acc.g.positions trade
        orders := bookAfterFill acc.g.orders o (min acc.remaining o.size) }
      remaining := acc.remaining - min acc.remaining o.size
      trades := acc.trades ++ [trade] }

/-- Matching pass for an admitted limit order; if `remaining > 0` after the
walk the reduced aggressor rests in the book. -/
def matchOrders (g : GameState) (newOrder : Order) : GameState × List Trade :=
  let opposite :=
    List.insertionSort (oppRel newOrder.side)
      (g.orders.filter (fun o => compatB newOrder.side newOrder.price o))
  let acc := opposite.foldl (matchStep newOrder.side newOrder.player)
    { g := g, remaining := newOrder.size, trades := [] }
  if 0 < acc.remaining then
    ({ acc.g with orders := acc.g.orders ++ [{ newOrder with size := acc.remaining }] },
      acc.trades)
  else (acc.g, acc.trades)

structure MarketResult where
  g : GameState
  trades : List Trade
  remaining : Int
deriving DecidableEq, Repr

/-- Market-order execution: walks all opposite-side orders best price first
(no price filter) and never rests. -/
def executeMarketOrder (g : GameState) (player : String) (side : Side) (size : Int) :
    MarketResult :=
  let opposite :=
    List.insertionSort (oppRel side) (g.orders.filter (fun o => o.side != side))
  let acc := opposite.foldl (matchStep side player)
    { g := g, remaining := size, trades := [] }
  { g := acc.g, trades := acc.trades, remaining := acc.remaining }

-- ## Settlement (source: `settleContract`)

/-- Per-entry settlement of `settleContract`: positions with nonzero quantity
fold unrealized PnL into realized PnL at the settlement price, settle cash,
and are zeroed; flat positions are untouched. -/
def settleOnePos (total : Rat) (e : String × Position) : String × Position :=
  let pos := e.2
  if pos.quantity ≠ 0 then
    let avgPrice : Rat :=
      if 0 < pos.quantity then pos.totalCost / (pos.quantity : Rat)
      else -pos.totalCost / ((|pos.quantity| : Int) : Rat)
    let unrealizedPnL : Rat := (pos.quantity : Rat) * (total - avgPrice)
    let pos := { pos with realizedPnL := pos.realizedPnL + unrealizedPnL }
    let settlementCash : Rat := (pos.quantity : Rat) * total
    let pos := { pos with cash := pos.cash + settlementCash }
    (e.1, { pos with quantity := 0, totalCost := 0 })
  else e

/-- Settlement: price is the sum of all `siblingCount`s; `none` models the
`'No players added yet'` rejection when that sum is 0. -/
def settleContract (g : GameState) : Option (GameState × Rat) :=
  let totalSiblings : Rat := (g.players.map (fun e => e.2.siblingCount)).sum
  if totalSiblings = 0 then none
  else
    some ({ g with settledPrice := some totalSiblings,
                   positions := g.positions.map (settleOnePos totalSiblings) },
      totalSiblings)

-- ## Turn scheduler helpers (source: `capturePriceHistory` and the
-- turn-advance blocks of the submit/cancel handlers)

def capturePriceHistory (g : GameState) : GameState :=
  if 0 < g.turnOrder.length ∧ 0 ≤ g.currentTurnIndex then
    { g with priceHistory :=
        g.priceHistory ++ [{ turn := g.priceHistory.length + 1, midPrice := getMidPrice g.orders }] }
  else g

def advanceTurn (g : GameState) : GameState :=
  if 0 < g.turnOrder.length ∧ 0 ≤ g.currentTurnIndex then
    capturePriceHistory
      { g with currentTurnIndex := (g.currentTurnIndex + 1) % (g.turnOrder.length : Int) }
  else g

/-- The turn-gating check of the submit/cancel handlers.  `some cp?` means the
request is rejected, carrying `turnOrder[currentTurnIndex]` (`none` inside
models the JS `undefined` when the index is out of range, in which case every
requester differs from it and is rejected). -/
def turnViolation (g : GameState) (player : String) : Option (Option String) :=
  if 0 < g.turnOrder.length ∧ 0 ≤ g.currentTurnIndex then
    match g.turnOrder.get? g.currentTurnIndex.toNat with
    | some cp => if player ≠ cp then some (some cp) else none
    | none => some none
  else none

-- ## Request outcomes (the structured JSON results of the API handlers)

inductive Outcome where
  | ok (trades : List Trade)
  | okCancelled (n : Nat)
  | okSettled (price : Rat)
  | okUnit
  | okCurrentTurn (idx : Int)
  | okCurrentPlayer (p : String)
  | errInvalidInput
  | errInvalidPlayer
  | errInvalidSideName
  | errInvalidSize
  | errInvalidPrice
  | errPriceNotInteger
  | errNotYourTurn (currentPlayer : Option String)
  | errTighten (bb ba : Option Rat)
  | errInsufficientLiquidity
  | errMissingPlayerName
  | errMissingOrderId
  | errOrderNotFound
  | errNoPlayers
  | errPlayerNotFound (name : String)
  | errPlayerNotInTurnOrder (name : String)
  | errEmptyTurnOrder
deriving DecidableEq, Repr

def Outcome.isOk : Outcome → Bool
  | .ok _ => true
  | .okCancelled _ => true
  | .okSettled _ => true
  | .okUnit => true
  | .okCurrentTurn _ => true
  | .okCurrentPlayer _ => true
  | _ => false

def Outcome.isReject (r : Outcome) : Bool := !r.isOk

-- ## API handlers (source: the `/api/...` request handlers)

def lookupPlayer (ps : List (String × Player)) (name : String) : Option Player :=
  (ps.find? (fun e => e.1 == name)).map (·.2)

/-- JS object-key assignment on `gameState.players`: replace the existing
entry in place, or append a fresh one. -/
def setPlayerEntry : List (String × Player) → String → Player → List (String × Player)
  | [], name, v => [(name, v)]
  | e :: rest, name, v =>
      if e.1 = name then (name, v) :: rest else e :: setPlayerEntry rest name v

/-- Handler `/api/addPlayer`.  Invalid shape (`!name`, negative count) is
rejected; otherwise the player entry is written and a zero position is created
if missing. -/
def addPlayer (e : EngineState) (name : String) (count : Rat) : Outcome × EngineState :=
  if name = "" ∨ count < 0 then (.errInvalidInput, e)
  else
    let g := { e.game with players := setPlayerEntry e.game.players name ⟨count, false⟩ }
    let g := if (lookupPos g.positions name).isSome then g
             else { g with positions := g.positions ++ [(name, zeroPosition)] }
    (.okUnit, { game := g, version := e.version + 1 })

/-- Handler `/api/toggleReveal`. -/
def toggleReveal (e : EngineState) (name : String) : Outcome × EngineState :=
  if name = "" then (.errInvalidPlayer, e)
  else
    match lookupPlayer e.game.players name with
    | none => (.errInvalidPlayer, e)
    | some pl =>
      let players' := setPlayerEntry e.game.players name { pl with revealed := !pl.revealed }
      (.okUnit, { game := { e.game with players := players' }, version := e.version + 1 })

/-- Handler `/api/submitOrder`, limit branch (`orderType !== 'market'`).
Validation order is the source's: side/name shape, size, turn gate, then
`ensurePosition`, then price validation, integer-price check and the
tighten-or-trade rule, then matching and the turn advance. -/
def submitLimitOrder (e : EngineState) (player : String) (side : Side)
    (price : Rat) (size : Int) : Outcome × EngineState :=
  if player = "" then (.errInvalidSideName, e)
  else if size ≤ 0 then (.errInvalidSize, e)
  else
    match turnViolation e.game player with
    | some cp => (.errNotYourTurn cp, e)
    | none =>
      let g := { e.game with positions := ensurePosition e.game.positions player }
      if price ≤ 0 then (.errInvalidPrice, { e with game := g })
      else if price.den ≠ 1 then (.errPriceNotInteger, { e with game := g })
      else if !canPlaceOrder g.orders side price then
        (.errTighten (bestBid g.orders) (bestAsk g.orders), { e with game := g })
      else
        let order : Order :=
          { id := g.orderIdCounter, player := player, side := side, price := price, size := size }
        let g := { g with orderIdCounter := g.orderIdCounter + 1 }
        let res := matchOrders g order
        let g := advanceTurn res.1
        (.ok res.2, { game := g, version := e.version + 1 })

/-- Handler `/api/submitOrder`, market branch (`orderType === 'market'`).
A zero fill is the hard `'Insufficient liquidity'` failure (note the source
keeps whatever `executeMarketOrder` already did to the state in that case);
otherwise the request succeeds with the emitted trades. -/
def submitMarketOrder (e : EngineState) (player : String) (side : Side)
    (size : Int) : Outcome × EngineState :=
  if player = "" then (.errInvalidSideName, e)
  else if size ≤ 0 then (.errInvalidSize, e)
  else
    match turnViolation e.game player with
    | some cp => (.errNotYourTurn cp, e)
    | none =>
      let g := { e.game with positions := ensurePosition e.game.positions player }
      let res := executeMarketOrder g player side size
      if 0 < res.remaining ∧ size - res.remaining = 0 then
        (.errInsufficientLiquidity, { e with game := res.g })
      else
        let g := advanceTurn res.g
        (.ok res.trades, { game := g, version := e.version + 1 })

/-- Handler `/api/cancelOrders` (cancel all of a player's resting orders). -/
def cancelPlayerOrders (e : EngineState) (player : String) : Outcome × EngineState :=
  if player = "" then (.errMissingPlayerName, e)
  else
    match turnViolation e.game player with
    | some cp => (.errNotYourTurn cp, e)
    | none =>
      let before := e.game.orders.length
      let g := { e.game with orders := e.game.orders.filter (fun o => o.player != player) }
      let cancelled := before - g.orders.length
      let g := if 0 < cancelled then advanceTurn g else g
      (.okCancelled cancelled, { game := g, version := e.version + 1 })

/-- Handler `/api/cancelOrder` (admin, by order id).  The source filters first
and only then checks whether anything was removed; a not-found request
reassigns `orders` to an equal array. -/
def cancelOrderById (e : EngineState) (orderId : Nat) : Outcome × EngineState :=
  if orderId = 0 then (.errMissingOrderId, e)
  else
    let before := e.game.orders.length
    let g := { e.game with orders := e.game.orders.filter (fun o => o.id != orderId) }
    let cancelled := before - g.orders.length
    if cancelled = 0 then (.errOrderNotFound, { e with game := g })
    else (.okCancelled cancelled, { game := g, version := e.version + 1 })

/-- Handler `/api/reset` (admin). -/
def initGame : GameState :=
  { players := [], orders := [], trades := [], positions := [], orderIdCounter := 1,
    settledPrice := none, turnOrder := [], currentTurnIndex := -1, priceHistory := [] }

def resetGame (e : EngineState) : Outcome × EngineState :=
  (.okUnit, { game := initGame, version := e.version + 1 })

/-- Handler `/api/settle` (admin). -/
def settleHandler (e : EngineState) : Outcome × EngineState :=
  match settleContract e.game with
  | none => (.errNoPlayers, e)
  | some (g, p) => (.okSettled p, { game := g, version := e.version + 1 })

/-- Handler `/api/setTurnOrder` (admin): rejected wholesale if any name is
unknown. -/
def setTurnOrder (e : EngineState) (lst : List String) : Outcome × EngineState :=
  match lst.find? (fun n => (lookupPlayer e.game.players n).isNone) with
  | some n => (.errPlayerNotFound n, e)
  | none =>
    (.okUnit, { game := { e.game with turnOrder := lst }, version := e.version + 1 })

/-- Handler `/api/setCurrentTurn` (admin).  `none` models the `-1`/`''`
sentinel that disables turns. -/
def setCurrentTurn (e : EngineState) (player : Option String) : Outcome × EngineState :=
  match player with
  | none =>
    (.okCurrentTurn (-1),
      { game := { e.game with currentTurnIndex := -1 }, version := e.version + 1 })
  | some n =>
    let idx := e.game.turnOrder.indexOf n
    if idx < e.game.turnOrder.length then
      (.okCurrentTurn (idx : Int),
        { game := { e.game with currentTurnIndex := (idx : Int) }, version := e.version + 1 })
    else (.errPlayerNotInTurnOrder n, e)

/-- Handler `/api/startTurns` (admin). -/
def startTurns (e : EngineState) : Outcome × EngineState :=
  if e.game.turnOrder.length = 0 then (.errEmptyTurnOrder, e)
  else
    (.okCurrentPlayer (e.game.turnOrder.headD ""),
      { game := { e.game with currentTurnIndex := 0 }, version := e.version + 1 })

/-- Handler `/api/stopTurns` (admin). -/
def stopTurns (e : EngineState) : Outcome × EngineState :=
  (.okUnit, { game := { e.game with currentTurnIndex := -1 }, version := e.version + 1 })

-- ## The operation table and reachability

inductive Op where
  | addPlayer (name : String) (count : Rat)
  | toggleReveal (name : String)
  | submitLimit (player : String) (side : Side) (price : Rat) (size : Int)
  | submitMarket (player : String) (side : Side) (size : Int)
  | cancelOrders (player : String)
  | cancelOrder (orderId : Nat)
  | reset
  | settle
  | setTurnOrder (lst : List String)
  | setCurrentTurn (player : Option String)
  | startTurns
  | stopTurns
deriving DecidableEq, Repr

def applyOp (e : EngineState) : Op → Outcome × EngineState
  | .addPlayer name count => addPlayer e name count
  | .toggleReveal name => toggleReveal e name
  | .submitLimit player side price size => submitLimitOrder e player side price size
  | .submitMarket player side size => submitMarketOrder e player side size
  | .cancelOrders player => cancelPlayerOrders e player
  | .cancelOrder orderId => cancelOrderById e orderId
  | .reset => resetGame e
  | .settle => settleHandler e
  | .setTurnOrder lst => setTurnOrder e lst
  | .setCurrentTurn player => setCurrentTurn e player
  | .startTurns => startTurns e
  | .stopTurns => stopTurns e

def initState : EngineState := { game := initGame, version := 1 }

/-- States reachable from the empty initial state through any request
sequence (accepted or rejected). -/
inductive Reachable : EngineState → Prop
  | init : Reachable initState
  | step {e : EngineState} (op : Op) : Reachable e → Reachable (applyOp e op).2

-- ## Engine invariants

/-- No crossed pair: no resting bid price is ≥ any resting ask price. -/
def noCross (orders : List Order) : Prop :=
  ∀ b ∈ orders, ∀ a ∈ orders, b.side = Side.bid → a.side = Side.ask → b.price < a.price

def sizePos (orders : List Order) : Prop := ∀ o ∈ orders, 0 < o.size

def idsNodup (orders : List Order) : Prop := (orders.map (·.id)).Nodup

def sumQty (ps : List (String × Position)) : Int := (ps.map (fun e => e.2.quantity)).sum

/-- The reachable-state invariant: uncrossed book, zero-sum positions,
positive resting sizes, and well-formed order ids. -/
structure EngineInv (g : GameState) : Prop where
  cross : noCross g.orders
  zero : sumQty g.positions = 0
  sz : sizePos g.orders
  nodup : idsNodup g.orders
  bounded : ∀ o ∈ g.orders, o.id < g.orderIdCounter


/-- Net quantity of a participant as read from the ledger (0 when absent,
matching the zero entry `ensurePosition` would create). -/
def qtyOf (ps : List (String × Position)) (n : String) : Int :=
  ((lookupPos ps n).map (·.quantity)).getD 0

-- ## Specification-side description of the matching walk (for the refinement
-- statement of the price-time-priority claim).  `walkFills` is the spec's
-- step 3: walk the ordered compatible set consuming `min(remaining, size)` at
-- each resting order until `remaining` reaches 0; `fillsToTrades` is step 4:
-- one trade per consumed resting order, priced at the resting order's price.

def walkFills (remaining : Int) : List Order → List (Order × Int)
  | [] => []
  | o :: os =>
    if remaining ≤ 0 then []
    else (o, min remaining o.size) :: walkFills (remaining - min remaining o.size) os

def fillsToTrades (side : Side) (player : String) (startLen : Nat) :
    List (Order × Int) → List Trade
  | [] => []
  | f :: rest =>
    { id := startLen + 1
      buyer := if side = Side.bid then player else f.1.player
      seller := if side = Side.bid then f.1.player else player
      price := f.1.price
      size := f.2 } :: fillsToTrades side player (startLen + 1) rest

/-- The compatible opposite-side resting orders, ordered best price first with
ties broken by smallest id, exactly as `matchOrders` builds them. -/
def sortedCompat (g : GameState) (n : Order) : List Order :=
  List.insertionSort (oppRel n.side) (g.orders.filter (fun o => compatB n.side n.price o))

/-- The opposite-side book ordered best price first, as `executeMarketOrder`
builds it (no price filter). -/
def sortedOpp (g : GameState) (side : Side) : List Order :=
  List.insertionSort (oppRel side) (g.orders.filter (fun o => o.side != side))

def sumTradeSizes (ts : List Trade) : Int := (ts.map (·.size)).sum

-- ## Ledger lemmas

lemma applyPosition_quantity (pos : Position) (q : Int) (price : Rat) :
    (applyPosition pos q price).quantity = pos.quantity + q := by
  unfold applyPosition
  by_cases h1 : 0 < q
  · simp [h1]
  · simp only [if_neg h1]
    rw [abs_of_nonpos (le_of_not_lt h1)]
    by_cases h2 : 0 < pos.quantity
    · simp only [if_pos h2]
      by_cases h3 : min (-q) pos.quantity < -q
      · simp only [if_pos h3]
        omega
      · simp only [if_neg h3]
        omega
    · simp only [if_neg h2]
      omega

lemma lookupPos_nil (n : String) : lookupPos [] n = none := rfl

lemma lookupPos_cons (e : String × Position) (ps : List (String × Position)) (n : String) :
    lookupPos (e :: ps) n = if e.1 = n then some e.2 else lookupPos ps n := by
  unfold lookupPos
  rw [List.find?_cons]
  by_cases h : e.1 = n
  · have hb : (e.1 == n) = true := by simp [h]
    rw [hb]
    simp [h]
  · have hb : (e.1 == n) = false := by simp [h]
    rw [hb]
    simp [h]

lemma lookupPos_append_of_none (ps : List (String × Position)) (n : String) (v : Position)
    (h : lookupPos ps n = none) : lookupPos (ps ++ [(n, v)]) n = some v := by
  induction ps with
  | nil => simp [lookupPos]
  | cons e rest ih =>
    rw [lookupPos_cons] at h
    rw [List.cons_append, lookupPos_cons]
    by_cases he : e.1 = n
    · simp [he] at h
    · simp only [if_neg he] at h ⊢
      exact ih h

lemma lookupPos_ensure (ps : List (String × Position)) (n : String) :
    lookupPos (ensurePosition ps n) n = some ((lookupPos ps n).getD zeroPosition) := by
  unfold ensurePosition
  cases h : lookupPos ps n with
  | some p => simp [h]
  | none => simp [h, lookupPos_append_of_none ps n zeroPosition h]

lemma lookupPos_setFirst_self (ps : List (String × Position)) (n : String) (v : Position)
    (h : (lookupPos ps n).isSome) : lookupPos (setFirstPos ps n v) n = some v := by
  induction ps with
  | nil => simp [lookupPos] at h
  | cons e rest ih =>
    rw [lookupPos_cons] at h
    by_cases he : e.1 = n
    · simp [setFirstPos, he, lookupPos_cons]
    · simp only [if_neg he] at h
      simp only [setFirstPos, if_neg he]
      rw [lookupPos_cons, if_neg he]
      exact ih h

lemma sumQty_nil : sumQty [] = 0 := rfl

lemma sumQty_cons (e : String × Position) (ps : List (String × Position)) :
    sumQty (e :: ps) = e.2.quantity + sumQty ps := by simp [sumQty]

lemma sumQty_append (ps qs : List (String × Position)) :
    sumQty (ps ++ qs) = sumQty ps + sumQty qs := by simp [sumQty]

lemma sumQty_ensure (ps : List (String × Position)) (n : String) :
    sumQty (ensurePosition ps n) = sumQty ps := by
  unfold ensurePosition
  split
  · rfl
  · simp [sumQty_append, sumQty, zeroPosition]

lemma sumQty_setFirst (ps : List (String × Position)) (n : String) (v pos : Position)
    (h : lookupPos ps n = some pos) :
    sumQty (setFirstPos ps n v) = sumQty ps - pos.quantity + v.quantity := by
  induction ps with
  | nil => simp [lookupPos] at h
  | cons e rest ih =>
    rw [lookupPos_cons] at h
    by_cases he : e.1 = n
    · simp only [if_pos he] at h
      injection h with h
      simp [setFirstPos, he, sumQty_cons, ← h]
      ring
    · simp only [if_neg he] at h
      simp only [setFirstPos, if_neg he]
      rw [sumQty_cons, sumQty_cons, ih h]
      ring

lemma updatePosition_sumQty (ps : List (String × Position)) (pl : String) (q : Int) (pr : Rat) :
    sumQty (updatePosition ps pl q pr) = sumQty ps + q := by
  unfold updatePosition
  rw [lookupPos_ensure]
  simp only
  rw [sumQty_setFirst _ _ _ _ (lookupPos_ensure ps pl), sumQty_ensure,
    applyPosition_quantity]
  ring

lemma updatePosition_qtyOf (ps : List (String × Position)) (pl : String) (q : Int) (pr : Rat) :
    qtyOf (updatePosition ps pl q pr) pl = qtyOf ps pl + q := by
  unfold updatePosition qtyOf
  rw [lookupPos_ensure]
  simp only
  rw [lookupPos_setFirst_self _ _ _ (by rw [lookupPos_ensure]; rfl)]
  simp only [Option.map_some', Option.getD_some, applyPosition_quantity]
  cases h : lookupPos ps pl <;> simp [h, zeroPosition]

-- ## Book-update lemmas

lemma eq_of_mem_of_id_eq {l : List Order} (hnd : idsNodup l) {a b : Order}
    (ha : a ∈ l) (hb : b ∈ l) (h : a.id = b.id) : a = b :=
  List.inj_on_of_nodup_map hnd ha hb h

lemma bookAfterFill_sub (orders : List Order) (o : Order) (ts : Int) :
    ∀ x ∈ bookAfterFill orders o ts, ∃ y ∈ orders,
      x.id = y.id ∧ x.player = y.player ∧ x.side = y.side ∧ x.price = y.price := by
  intro x hx
  unfold bookAfterFill at hx
  have hx' : x ∈ orders.map
      (fun y => if y.id = o.id then { y with size := y.size - ts } else y) := by
    split at hx
    · exact (List.mem_filter.mp hx).1
    · exact hx
  rcases List.mem_map.mp hx' with ⟨y, hy, hxy⟩
  by_cases hid : y.id = o.id
  · rw [if_pos hid] at hxy
    subst hxy
    exact ⟨y, hy, by simp⟩
  · rw [if_neg hid] at hxy
    subst hxy
    exact ⟨y, hy, rfl, rfl, rfl, rfl⟩

lemma bookAfterFill_ids_sublist (orders : List Order) (o : Order) (ts : Int) :
    ((bookAfterFill orders o ts).map (·.id)).Sublist (orders.map (·.id)) := by
  simp only [bookAfterFill]
  have hmap : (orders.map
      (fun y => if y.id = o.id then { y with size := y.size - ts } else y)).map
        (fun x : Order => x.id) = orders.map (fun x : Order => x.id) := by
    rw [List.map_map]
    apply List.map_congr_left
    intro y _
    by_cases hid : y.id = o.id <;> simp [hid]
  split
  · have h1 := List.Sublist.map (fun x : Order => x.id)
      (List.filter_sublist (l := orders.map
        (fun y => if y.id = o.id then { y with size := y.size - ts } else y))
        (p := fun x => x.id != o.id))
    rw [hmap] at h1
    exact h1
  · rw [hmap]

lemma bookAfterFill_nodup (orders : List Order) (o : Order) (ts : Int)
    (h : idsNodup orders) : idsNodup (bookAfterFill orders o ts) :=
  List.Nodup.sublist (bookAfterFill_ids_sublist orders o ts) h

lemma bookAfterFill_mem_of_ne (orders : List Order) (o : Order) (ts : Int)
    {x : Order} (hx : x ∈ orders) (hne : x.id ≠ o.id) :
    x ∈ bookAfterFill orders o ts := by
  simp only [bookAfterFill]
  have hx' : x ∈ orders.map
      (fun y => if y.id = o.id then { y with size := y.size - ts } else y) := by
    apply List.mem_map.mpr
    exact ⟨x, hx, by rw [if_neg hne]⟩
  split
  · exact List.mem_filter.mpr ⟨hx', by simpa using hne⟩
  · exact hx'

lemma bookAfterFill_not_mem_of_removed (orders : List Order) (o : Order) (ts : Int)
    (h : o.size - ts = 0) : ∀ x ∈ bookAfterFill orders o ts, x.id ≠ o.id := by
  intro x hx
  unfold bookAfterFill at hx
  rw [if_pos h] at hx
  simpa using (List.mem_filter.mp hx).2

lemma bookAfterFill_mem_shrunk (orders : List Order) (o : Order) (ts : Int)
    (ho : o ∈ orders) (h : o.size - ts ≠ 0) :
    { o with size := o.size - ts } ∈ bookAfterFill orders o ts := by
  simp only [bookAfterFill]
  rw [if_neg h]
  apply List.mem_map.mpr
  exact ⟨o, ho, by rw [if_pos rfl]⟩

lemma bookAfterFill_sizePos (orders : List Order) (o : Order) (ts : Int)
    (hsz : sizePos orders) (hnd : idsNodup orders) (ho : o ∈ orders)
    (hts : ts ≤ o.size) : sizePos (bookAfterFill orders o ts) := by
  intro x hx
  unfold bookAfterFill at hx
  by_cases hrem : o.size - ts = 0
  · rw [if_pos hrem] at hx
    rcases List.mem_filter.mp hx with ⟨hx', hne⟩
    rcases List.mem_map.mp hx' with ⟨y, hy, hxy⟩
    by_cases hid : y.id = o.id
    · rw [if_pos hid] at hxy
      exfalso
      apply (by simpa using hne : x.id ≠ o.id)
      rw [← hxy]
      exact hid
    · rw [if_neg hid] at hxy
      rw [← hxy]
      exact hsz y hy
  · rw [if_neg hrem] at hx
    rcases List.mem_map.mp hx with ⟨y, hy, hxy⟩
    by_cases hid : y.id = o.id
    · rw [if_pos hid] at hxy
      have hyo : y = o := eq_of_mem_of_id_eq hnd hy ho hid
      subst hxy
      simp only
      rw [hyo]
      omega
    · rw [if_neg hid] at hxy
      rw [← hxy]
      exact hsz y hy

-- ## Matching-loop (fold) lemmas

lemma matchStep_of_nonpos {side : Side} {player : String} {acc : MatchAcc} {o : Order}
    (h : acc.remaining ≤ 0) : matchStep side player acc o = acc := by
  simp [matchStep, h]

lemma matchStep_of_pos {side : Side} {player : String} {acc : MatchAcc} {o : Order}
    (h : 0 < acc.remaining) :
    matchStep side player acc o =
      { g := { acc.g with
          trades := acc.g.trades ++ [emittedTrade side player acc o]
          positions := ledgerAfterFill acc.g.positions (emittedTrade side player acc o)
          orders := bookAfterFill acc.g.orders o (min acc.remaining o.size) }
        remaining := acc.remaining - min acc.remaining o.size
        trades := acc.trades ++ [emittedTrade side player acc o] } := by
  rw [matchStep, if_neg (not_le.mpr h)]

lemma foldMatch_of_nonpos (side : Side) (player : String) (os : List Order)
    (acc : MatchAcc) (h : acc.remaining ≤ 0) :
    os.foldl (matchStep side player) acc = acc := by
  induction os with
  | nil => rfl
  | cons o os ih =>
    rw [List.foldl_cons, matchStep_of_nonpos h]
    exact ih

lemma foldMatch_remaining_le (side : Side) (player : String) :
    ∀ (os : List Order) (acc : MatchAcc), (∀ o ∈ os, 0 ≤ o.size) →
      (os.foldl (matchStep side player) acc).remaining ≤ acc.remaining := by
  intro os
  induction os with
  | nil => intro acc _; exact le_refl _
  | cons o os ih =>
    intro acc hsz
    rw [List.foldl_cons]
    refine (ih (matchStep side player acc o)
      (fun o' ho' => hsz o' (List.mem_cons_of_mem _ ho'))).trans ?_
    by_cases h : acc.remaining ≤ 0
    · rw [matchStep_of_nonpos h]
    · rw [matchStep_of_pos (not_le.mp h)]
      have := hsz o (List.mem_cons_self o os)
      simp only
      omega

lemma foldMatch_orders_sub (side : Side) (player : String) :
    ∀ (os : List Order) (acc : MatchAcc),
      ∀ x ∈ (os.foldl (matchStep side player) acc).g.orders, ∃ y ∈ acc.g.orders,
        x.id = y.id ∧ x.player = y.player ∧ x.side = y.side ∧ x.price = y.price := by
  intro os
  induction os with
  | nil => intro acc x hx; exact ⟨x, hx, rfl, rfl, rfl, rfl⟩
  | cons o os ih =>
    intro acc x hx
    rw [List.foldl_cons] at hx
    obtain ⟨y, hy, h1, h2, h3, h4⟩ := ih (matchStep side player acc o) x hx
    by_cases h : acc.remaining ≤ 0
    · rw [matchStep_of_nonpos h] at hy
      exact ⟨y, hy, h1, h2, h3, h4⟩
    · rw [matchStep_of_pos (not_le.mp h)] at hy
      obtain ⟨z, hz, g1, g2, g3, g4⟩ := bookAfterFill_sub _ _ _ y hy
      exact ⟨z, hz, h1.trans g1, h2.trans g2, h3.trans g3, h4.trans g4⟩

lemma foldMatch_trades (side : Side) (player : String) :
    ∀ (os : List Order) (acc : MatchAcc),
      (os.foldl (matchStep side player) acc).trades
        = acc.trades ++ fillsToTrades side player acc.g.trades.length
            (walkFills acc.remaining os) := by
  intro os
  induction os with
  | nil => intro acc; simp [walkFills, fillsToTrades]
  | cons o os ih =>
    intro acc
    rw [List.foldl_cons]
    by_cases h : acc.remaining ≤ 0
    · rw [matchStep_of_nonpos h, foldMatch_of_nonpos side player os acc h]
      simp [walkFills, h, fillsToTrades]
    · rw [matchStep_of_pos (not_le.mp h), ih]
      simp only [walkFills, if_neg h, fillsToTrades, emittedTrade, List.length_append,
        List.length_cons, List.length_nil, List.append_assoc, List.singleton_append]

lemma foldMatch_g_trades (side : Side) (player : String) :
    ∀ (os : List Order) (acc : MatchAcc),
      (os.foldl (matchStep side player) acc).g.trades
        = acc.g.trades ++ fillsToTrades side player acc.g.trades.length
            (walkFills acc.remaining os) := by
  intro os
  induction os with
  | nil => intro acc; simp [walkFills, fillsToTrades]
  | cons o os ih =>
    intro acc
    rw [List.foldl_cons]
    by_cases h : acc.remaining ≤ 0
    · rw [matchStep_of_nonpos h, foldMatch_of_nonpos side player os acc h]
      simp [walkFills, h, fillsToTrades]
    · rw [matchStep_of_pos (not_le.mp h), ih]
      simp only [walkFills, if_neg h, fillsToTrades, emittedTrade, List.length_append,
        List.length_cons, List.length_nil, List.append_assoc, List.singleton_append]

lemma foldMatch_remaining_eq (side : Side) (player : String) :
    ∀ (os : List Order) (acc : MatchAcc),
      (os.foldl (matchStep side player) acc).remaining
        = acc.remaining - ((walkFills acc.remaining os).map (·.2)).sum := by
  intro os
  induction os with
  | nil => intro acc; simp [walkFills]
  | cons o os ih =>
    intro acc
    rw [List.foldl_cons]
    by_cases h : acc.remaining ≤ 0
    · rw [matchStep_of_nonpos h, foldMatch_of_nonpos side player os acc h]
      simp [walkFills, h]
    · rw [matchStep_of_pos (not_le.mp h), ih]
      simp only [walkFills, if_neg h, List.map_cons, List.sum_cons]
      omega

lemma ledgerAfterFill_sumQty (ps : List (String × Position)) (t : Trade) :
    sumQty (ledgerAfterFill ps t) = sumQty ps := by
  unfold ledgerAfterFill
  rw [updatePosition_sumQty, updatePosition_sumQty]
  ring

lemma foldMatch_sumQty (side : Side) (player : String) :
    ∀ (os : List Order) (acc : MatchAcc),
      sumQty (os.foldl (matchStep side player) acc).g.positions
        = sumQty acc.g.positions := by
  intro os
  induction os with
  | nil => intro acc; rfl
  | cons o os ih =>
    intro acc
    rw [List.foldl_cons, ih]
    by_cases h : acc.remaining ≤ 0
    · rw [matchStep_of_nonpos h]
    · rw [matchStep_of_pos (not_le.mp h)]
      exact ledgerAfterFill_sumQty _ _

lemma matchStep_g_fields (side : Side) (player : String) (acc : MatchAcc) (o : Order) :
    (matchStep side player acc o).g.players = acc.g.players
    ∧ (matchStep side player acc o).g.orderIdCounter = acc.g.orderIdCounter
    ∧ (matchStep side player acc o).g.settledPrice = acc.g.settledPrice
    ∧ (matchStep side player acc o).g.turnOrder = acc.g.turnOrder
    ∧ (matchStep side player acc o).g.currentTurnIndex = acc.g.currentTurnIndex
    ∧ (matchStep side player acc o).g.priceHistory = acc.g.priceHistory := by
  by_cases h : acc.remaining ≤ 0
  · rw [matchStep_of_nonpos h]
    exact ⟨rfl, rfl, rfl, rfl, rfl, rfl⟩
  · rw [matchStep_of_pos (not_le.mp h)]
    exact ⟨rfl, rfl, rfl, rfl, rfl, rfl⟩

lemma foldMatch_g_fields (side : Side) (player : String) :
    ∀ (os : List Order) (acc : MatchAcc),
      (os.foldl (matchStep side player) acc).g.players = acc.g.players
      ∧ (os.foldl (matchStep side player) acc).g.orderIdCounter = acc.g.orderIdCounter
      ∧ (os.foldl (matchStep side player) acc).g.settledPrice = acc.g.settledPrice
      ∧ (os.foldl (matchStep side player) acc).g.turnOrder = acc.g.turnOrder
      ∧ (os.foldl (matchStep side player) acc).g.currentTurnIndex = acc.g.currentTurnIndex
      ∧ (os.foldl (matchStep side player) acc).g.priceHistory = acc.g.priceHistory := by
  intro os
  induction os with
  | nil => intro acc; exact ⟨rfl, rfl, rfl, rfl, rfl, rfl⟩
  | cons o os ih =>
    intro acc
    rw [List.foldl_cons]
    obtain ⟨a1, a2, a3, a4, a5, a6⟩ := ih (matchStep side player acc o)
    obtain ⟨b1, b2, b3, b4, b5, b6⟩ := matchStep_g_fields side player acc o
    exact ⟨a1.trans b1, a2.trans b2, a3.trans b3, a4.trans b4, a5.trans b5, a6.trans b6⟩

lemma foldMatch_nil_of_remaining_eq (side : Side) (player : String)
    (os : List Order) (acc : MatchAcc) (hsz : ∀ o ∈ os, 0 < o.size)
    (hr : 0 < acc.remaining)
    (heq : (os.foldl (matchStep side player) acc).remaining = acc.remaining) :
    os = [] := by
  cases os with
  | nil => rfl
  | cons o os =>
    exfalso
    rw [List.foldl_cons] at heq
    rw [matchStep_of_pos hr] at heq
    have hle := foldMatch_remaining_le side player os
      { g := { acc.g with
          trades := acc.g.trades ++ [emittedTrade side player acc o]
          positions := ledgerAfterFill acc.g.positions (emittedTrade side player acc o)
          orders := bookAfterFill acc.g.orders o (min acc.remaining o.size) }
        remaining := acc.remaining - min acc.remaining o.size
        trades := acc.trades ++ [emittedTrade side player acc o] }
      (fun o' ho' => le_of_lt (hsz o' (List.mem_cons_of_mem _ ho')))
    rw [heq] at hle
    have hszo := hsz o (List.mem_cons_self o os)
    simp only at hle
    omega

lemma foldMatch_consumed (side : Side) (player : String) :
    ∀ (os : List Order) (acc : MatchAcc), (∀ o ∈ os, 0 ≤ o.size) →
      0 < (os.foldl (matchStep side player) acc).remaining →
      ∀ o ∈ os, ∀ x ∈ (os.foldl (matchStep side player) acc).g.orders, x.id ≠ o.id := by
  intro os
  induction os with
  | nil => intro acc _ _ o ho; exact absurd ho (List.not_mem_nil o)
  | cons o os ih =>
    intro acc hsz hrem o' ho' x hx
    have hr : 0 < acc.remaining := by
      by_contra hr
      rw [foldMatch_of_nonpos side player _ acc (not_lt.mp hr)] at hrem
      omega
    rw [List.foldl_cons, matchStep_of_pos hr] at hrem hx
    set acc' : MatchAcc :=
      { g := { acc.g with
          trades := acc.g.trades ++ [emittedTrade side player acc o]
          positions := ledgerAfterFill acc.g.positions (emittedTrade side player acc o)
          orders := bookAfterFill acc.g.orders o (min acc.remaining o.size) }
        remaining := acc.remaining - min acc.remaining o.size
        trades := acc.trades ++ [emittedTrade side player acc o] } with hacc'
    have htail : ∀ o'' ∈ os, (0:Int) ≤ o''.size :=
      fun o'' ho'' => hsz o'' (List.mem_cons_of_mem _ ho'')
    have hfull : min acc.remaining o.size = o.size := by
      have hle := foldMatch_remaining_le side player os acc' htail
      have : acc'.remaining = acc.remaining - min acc.remaining o.size := rfl
      rcases min_choice acc.remaining o.size with hmin | hmin
      · exfalso
        omega
      · exact hmin
    rcases List.mem_cons.mp ho' with rfl | ho'
    · -- the head is fully consumed and removed; later steps never reintroduce it
      obtain ⟨y, hy, h1, _, _, _⟩ := foldMatch_orders_sub side player os acc' x hx
      have hy' : y ∈ bookAfterFill acc.g.orders o' (min acc.remaining o'.size) := hy
      have := bookAfterFill_not_mem_of_removed acc.g.orders o'
        (min acc.remaining o'.size) (by omega) y hy'
      omega
    · exact ih acc' htail hrem o' ho' x hx

lemma foldMatch_book_wf (side : Side) (player : String) :
    ∀ (os : List Order) (acc : MatchAcc),
      idsNodup acc.g.orders → sizePos acc.g.orders →
      (∀ o ∈ os, o ∈ acc.g.orders) → (os.map (·.id)).Nodup →
      idsNodup (os.foldl (matchStep side player) acc).g.orders
      ∧ sizePos (os.foldl (matchStep side player) acc).g.orders := by
  intro os
  induction os with
  | nil => intro acc hnd hsz _ _; exact ⟨hnd, hsz⟩
  | cons o os ih =>
    intro acc hnd hsz hmem hosnd
    rw [List.foldl_cons]
    by_cases h : acc.remaining ≤ 0
    · rw [matchStep_of_nonpos h]
      exact ih acc hnd hsz (fun o' ho' => hmem o' (List.mem_cons_of_mem _ ho'))
        (List.Nodup.of_cons (by simpa using hosnd))
    · rw [matchStep_of_pos (not_le.mp h)]
      have ho : o ∈ acc.g.orders := hmem o (List.mem_cons_self o os)
      have hosnd' : ((o :: os).map (·.id)).Nodup = (o.id :: os.map (·.id)).Nodup := by
        simp
      have hhead : o.id ∉ os.map (·.id) := by
        have := hosnd
        simp only [List.map_cons, List.nodup_cons] at this
        exact this.1
      refine ih _ (bookAfterFill_nodup _ _ _ hnd)
        (bookAfterFill_sizePos _ _ _ hsz hnd ho (min_le_right _ _)) ?_ ?_
      · intro o' ho'
        have hne : o'.id ≠ o.id := by
          intro hcontra
          exact hhead (hcontra ▸ List.mem_map.mpr ⟨o', ho', rfl⟩)
        exact bookAfterFill_mem_of_ne _ _ _
          (hmem o' (List.mem_cons_of_mem _ ho')) hne
      · have := hosnd
        simp only [List.map_cons, List.nodup_cons] at this
        exact this.2

lemma foldMatch_fills (side : Side) (player : String) :
    ∀ (os : List Order) (acc : MatchAcc),
      idsNodup acc.g.orders → (∀ o ∈ os, o ∈ acc.g.orders) → (os.map (·.id)).Nodup →
      ∀ p ∈ walkFills acc.remaining os,
        (p.2 = p.1.size →
          ∀ x ∈ (os.foldl (matchStep side player) acc).g.orders, x.id ≠ p.1.id)
        ∧ (p.2 ≠ p.1.size →
            { p.1 with size := p.1.size - p.2 }
              ∈ (os.foldl (matchStep side player) acc).g.orders) := by
  intro os
  induction os with
  | nil => intro acc _ _ _ p hp; exact absurd hp (by simp [walkFills])
  | cons o os ih =>
    intro acc hnd hmem hosnd p hp
    by_cases hr : acc.remaining ≤ 0
    · rw [walkFills, if_pos hr] at hp
      exact absurd hp (List.not_mem_nil p)
    · rw [walkFills, if_neg hr] at hp
      rw [List.foldl_cons, matchStep_of_pos (not_le.mp hr)]
      set ts := min acc.remaining o.size with hts
      set acc' : MatchAcc :=
        { g := { acc.g with
            trades := acc.g.trades ++ [emittedTrade side player acc o]
            positions := ledgerAfterFill acc.g.positions (emittedTrade side player acc o)
            orders := bookAfterFill acc.g.orders o ts }
          remaining := acc.remaining - ts
          trades := acc.trades ++ [emittedTrade side player acc o] } with hacc'
      have hhead : o.id ∉ os.map (·.id) := by
        have := hosnd
        simp only [List.map_cons, List.nodup_cons] at this
        exact this.1
      have htailnd : (os.map (·.id)).Nodup := by
        have := hosnd
        simp only [List.map_cons, List.nodup_cons] at this
        exact this.2
      have hmem' : ∀ o' ∈ os, o' ∈ acc'.g.orders := by
        intro o' ho'
        have hne : o'.id ≠ o.id := by
          intro hcontra
          exact hhead (hcontra ▸ List.mem_map.mpr ⟨o', ho', rfl⟩)
        exact bookAfterFill_mem_of_ne _ _ _
          (hmem o' (List.mem_cons_of_mem _ ho')) hne
      have hnd' : idsNodup acc'.g.orders := bookAfterFill_nodup _ _ _ hnd
      rcases List.mem_cons.mp hp with rfl | hp
      · constructor
        · intro hfull x hx
          obtain ⟨y, hy, h1, _, _, _⟩ := foldMatch_orders_sub side player os acc' x hx
          have hy' : y ∈ bookAfterFill acc.g.orders o ts := hy
          have := bookAfterFill_not_mem_of_removed acc.g.orders o ts
            (by simpa using sub_eq_zero_of_eq hfull.symm) y hy'
          simp only
          omega
        · intro hpart
          have hts' : ts = acc.remaining := by
            rcases min_choice acc.remaining o.size with hmin | hmin
            · rw [hts, hmin]
            · exact absurd (hts.trans hmin) hpart
          have hzero : acc'.remaining ≤ 0 := by
            simp only [hacc']
            omega
          rw [foldMatch_of_nonpos side player os acc' hzero]
          have hpart' : ts ≠ o.size := hpart
          exact bookAfterFill_mem_shrunk acc.g.orders o ts
            (hmem o (List.mem_cons_self o os))
            (fun hcontra => hpart' (by omega))
      · exact ih acc' hnd' hmem' htailnd p hp

-- ## Lemmas about the sorted compatible set and `matchOrders` itself

lemma sortedCompat_perm (g : GameState) (n : Order) :
    (sortedCompat g n).Perm (g.orders.filter (fun o => compatB n.side n.price o)) :=
  List.perm_insertionSort _ _

lemma mem_sortedCompat {g : GameState} {n y : Order} :
    y ∈ sortedCompat g n ↔ y ∈ g.orders ∧ compatB n.side n.price y = true := by
  rw [(sortedCompat_perm g n).mem_iff, List.mem_filter]

lemma sortedCompat_ids_nodup {g : GameState} (n : Order) (hnd : idsNodup g.orders) :
    ((sortedCompat g n).map (·.id)).Nodup := by
  have hperm := (sortedCompat_perm g n).map (·.id)
  rw [hperm.nodup_iff]
  exact List.Nodup.sublist ((List.filter_sublist _).map _) hnd

lemma sortedCompat_sizes {g : GameState} (n : Order) (hsz : sizePos g.orders) :
    ∀ y ∈ sortedCompat g n, 0 < y.size :=
  fun y hy => hsz y (mem_sortedCompat.mp hy).1

lemma matchOrders_def (g : GameState) (n : Order) :
    matchOrders g n =
      (if 0 < ((sortedCompat g n).foldl (matchStep n.side n.player)
          { g := g, remaining := n.size, trades := [] }).remaining then
        ({ ((sortedCompat g n).foldl (matchStep n.side n.player)
              { g := g, remaining := n.size, trades := [] }).g with
            orders := ((sortedCompat g n).foldl (matchStep n.side n.player)
                { g := g, remaining := n.size, trades := [] }).g.orders
              ++ [{ n with size := ((sortedCompat g n).foldl (matchStep n.side n.player)
                  { g := g, remaining := n.size, trades := [] }).remaining }] },
          ((sortedCompat g n).foldl (matchStep n.side n.player)
              { g := g, remaining := n.size, trades := [] }).trades)
      else (((sortedCompat g n).foldl (matchStep n.side n.player)
          { g := g, remaining := n.size, trades := [] }).g,
        ((sortedCompat g n).foldl (matchStep n.side n.player)
            { g := g, remaining := n.size, trades := [] }).trades) ) := rfl

lemma matchOrders_trades (g : GameState) (n : Order) :
    (matchOrders g n).2 = fillsToTrades n.side n.player g.trades.length
      (walkFills n.size (sortedCompat g n)) := by
  rw [matchOrders_def]
  split <;>
    simpa using foldMatch_trades n.side n.player (sortedCompat g n)
      { g := g, remaining := n.size, trades := [] }

lemma matchOrders_g_trades (g : GameState) (n : Order) :
    (matchOrders g n).1.trades = g.trades ++ fillsToTrades n.side n.player g.trades.length
      (walkFills n.size (sortedCompat g n)) := by
  rw [matchOrders_def]
  split <;>
    simpa using foldMatch_g_trades n.side n.player (sortedCompat g n)
      { g := g, remaining := n.size, trades := [] }

lemma matchOrders_sumQty (g : GameState) (n : Order) :
    sumQty (matchOrders g n).1.positions = sumQty g.positions := by
  rw [matchOrders_def]
  split <;>
    simpa using foldMatch_sumQty n.side n.player (sortedCompat g n)
      { g := g, remaining := n.size, trades := [] }

lemma matchOrders_g_fields (g : GameState) (n : Order) :
    (matchOrders g n).1.players = g.players
    ∧ (matchOrders g n).1.orderIdCounter = g.orderIdCounter
    ∧ (matchOrders g n).1.settledPrice = g.settledPrice
    ∧ (matchOrders g n).1.turnOrder = g.turnOrder
    ∧ (matchOrders g n).1.currentTurnIndex = g.currentTurnIndex
    ∧ (matchOrders g n).1.priceHistory = g.priceHistory := by
  rw [matchOrders_def]
  have h := foldMatch_g_fields n.side n.player (sortedCompat g n)
    { g := g, remaining := n.size, trades := [] }
  split <;> simpa using h

lemma matchOrders_noCross (g : GameState) (n : Order)
    (hcross : noCross g.orders) (hsz : sizePos g.orders) :
    noCross (matchOrders g n).1.orders := by
  rw [matchOrders_def]
  have hFsub := foldMatch_orders_sub n.side n.player (sortedCompat g n)
    { g := g, remaining := n.size, trades := [] }
  have hsizes : ∀ o ∈ sortedCompat g n, (0:Int) ≤ o.size :=
    fun o ho => le_of_lt (sortedCompat_sizes n hsz o ho)
  split
  · next hrem =>
    set F := (sortedCompat g n).foldl (matchStep n.side n.player)
      { g := g, remaining := n.size, trades := [] } with hF
    intro b hb a ha hbside haside
    have hb' : b ∈ F.g.orders ++ [{ n with size := F.remaining }] := hb
    have ha' : a ∈ F.g.orders ++ [{ n with size := F.remaining }] := ha
    rcases List.mem_append.mp hb' with hbF | hbN <;>
      rcases List.mem_append.mp ha' with haF | haN
    · obtain ⟨yb, hyb, _, _, b3, b4⟩ := hFsub b hbF
      obtain ⟨ya, hya, _, _, a3, a4⟩ := hFsub a haF
      rw [b4, a4]
      exact hcross yb hyb ya hya (b3 ▸ hbside) (a3 ▸ haside)
    · -- b rests in the book, a is the rested aggressor: n is an ask
      have haN' : a = { n with size := F.remaining } := List.mem_singleton.mp haN
      have hnside : n.side = Side.ask := by
        have : a.side = n.side := by rw [haN']
        rw [← this, haside]
      obtain ⟨yb, hyb, b1, _, b3, b4⟩ := hFsub b hbF
      by_contra hlt
      push_neg at hlt
      have hap : a.price = n.price := by rw [haN']
      have hyb_compat : compatB n.side n.price yb = true := by
        rw [hnside]
        simp only [compatB, Bool.and_eq_true, bne_iff_ne, ne_eq, decide_eq_true_eq]
        constructor
        · rw [← b3, hbside]
          simp
        · rw [← b4, ← hap]
          exact hlt
      have hin : yb ∈ sortedCompat g n :=
        mem_sortedCompat.mpr ⟨hyb, by rw [hnside] at hyb_compat ⊢; exact hyb_compat⟩
      exact foldMatch_consumed n.side n.player (sortedCompat g n)
        { g := g, remaining := n.size, trades := [] } hsizes hrem yb hin b hbF b1
    · -- a rests in the book, b is the rested aggressor: n is a bid
      have hbN' : b = { n with size := F.remaining } := List.mem_singleton.mp hbN
      have hnside : n.side = Side.bid := by
        have : b.side = n.side := by rw [hbN']
        rw [← this, hbside]
      obtain ⟨ya, hya, a1, _, a3, a4⟩ := hFsub a haF
      by_contra hlt
      push_neg at hlt
      have hbp : b.price = n.price := by rw [hbN']
      have hya_compat : compatB n.side n.price ya = true := by
        rw [hnside]
        simp only [compatB, Bool.and_eq_true, bne_iff_ne, ne_eq, decide_eq_true_eq]
        constructor
        · rw [← a3, haside]
          simp
        · rw [← a4, ← hbp]
          exact hlt
      have hin : ya ∈ sortedCompat g n :=
        mem_sortedCompat.mpr ⟨hya, by rw [hnside] at hya_compat ⊢; exact hya_compat⟩
      exact foldMatch_consumed n.side n.player (sortedCompat g n)
        { g := g, remaining := n.size, trades := [] } hsizes hrem ya hin a haF a1
    · have hbN' : b = { n with size := F.remaining } := List.mem_singleton.mp hbN
      have haN' : a = { n with size := F.remaining } := List.mem_singleton.mp haN
      have h1 : n.side = Side.bid := by
        have : b.side = n.side := by rw [hbN']
        rw [← this, hbside]
      have h2 : n.side = Side.ask := by
        have : a.side = n.side := by rw [haN']
        rw [← this, haside]
      rw [h1] at h2
      cases h2
  · next hrem =>
    intro b hb a ha hbside haside
    obtain ⟨yb, hyb, _, _, b3, b4⟩ := hFsub b hb
    obtain ⟨ya, hya, _, _, a3, a4⟩ := hFsub a ha
    rw [b4, a4]
    exact hcross yb hyb ya hya (b3 ▸ hbside) (a3 ▸ haside)

lemma matchOrders_book_wf (g : GameState) (n : Order)
    (hnd : idsNodup g.orders) (hsz : sizePos g.orders)
    (hfresh : ∀ x ∈ g.orders, x.id ≠ n.id) :
    idsNodup (matchOrders g n).1.orders ∧ sizePos (matchOrders g n).1.orders
    ∧ ∀ x ∈ (matchOrders g n).1.orders, x.id = n.id ∨ ∃ y ∈ g.orders, x.id = y.id := by
  rw [matchOrders_def]
  have hwf := foldMatch_book_wf n.side n.player (sortedCompat g n)
    { g := g, remaining := n.size, trades := [] } hnd hsz
    (fun o ho => (mem_sortedCompat.mp ho).1) (sortedCompat_ids_nodup n hnd)
  have hFsub := foldMatch_orders_sub n.side n.player (sortedCompat g n)
    { g := g, remaining := n.size, trades := [] }
  split
  · next hrem =>
    set F := (sortedCompat g n).foldl (matchStep n.side n.player)
      { g := g, remaining := n.size, trades := [] } with hF
    have hnotin : n.id ∉ F.g.orders.map (·.id) := by
      intro hcontra
      rcases List.mem_map.mp hcontra with ⟨x, hx, hxid⟩
      obtain ⟨y, hy, h1, _, _, _⟩ := hFsub x hx
      exact hfresh y hy (h1 ▸ hxid)
    refine ⟨?_, ?_, ?_⟩
    · show idsNodup (F.g.orders ++ [({ n with size := F.remaining } : Order)])
      unfold idsNodup
      rw [List.map_append, List.nodup_append]
      refine ⟨hwf.1, by simp, ?_⟩
      intro i hi hj
      simp only [List.map_cons, List.map_nil, List.mem_singleton] at hj
      subst hj
      exact hnotin hi
    · intro x hx
      rcases List.mem_append.mp hx with hx | hx
      · exact hwf.2 x hx
      · rw [List.mem_singleton.mp hx]
        exact hrem
    · intro x hx
      rcases List.mem_append.mp hx with hx | hx
      · obtain ⟨y, hy, h1, _, _, _⟩ := hFsub x hx
        exact Or.inr ⟨y, hy, h1⟩
      · rw [List.mem_singleton.mp hx]
        exact Or.inl rfl
  · next hrem =>
    refine ⟨hwf.1, hwf.2, ?_⟩
    intro x hx
    obtain ⟨y, hy, h1, _, _, _⟩ := hFsub x hx
    exact Or.inr ⟨y, hy, h1⟩

-- ## Lemmas about `executeMarketOrder`

lemma sortedOpp_perm (g : GameState) (side : Side) :
    (sortedOpp g side).Perm (g.orders.filter (fun o => o.side != side)) :=
  List.perm_insertionSort _ _

lemma mem_sortedOpp {g : GameState} {side : Side} {y : Order} :
    y ∈ sortedOpp g side ↔ y ∈ g.orders ∧ y.side ≠ side := by
  rw [(sortedOpp_perm g side).mem_iff, List.mem_filter]
  simp

lemma sortedOpp_ids_nodup {g : GameState} (side : Side) (hnd : idsNodup g.orders) :
    ((sortedOpp g side).map (·.id)).Nodup := by
  have hperm := (sortedOpp_perm g side).map (·.id)
  rw [hperm.nodup_iff]
  exact List.Nodup.sublist ((List.filter_sublist _).map _) hnd

lemma executeMarketOrder_def (g : GameState) (player : String) (side : Side) (size : Int) :
    executeMarketOrder g player side size =
      { g := ((sortedOpp g side).foldl (matchStep side player)
          { g := g, remaining := size, trades := [] }).g
        trades := ((sortedOpp g side).foldl (matchStep side player)
          { g := g, remaining := size, trades := [] }).trades
        remaining := ((sortedOpp g side).foldl (matchStep side player)
          { g := g, remaining := size, trades := [] }).remaining } := rfl

lemma executeMarketOrder_trades (g : GameState) (player : String) (side : Side) (size : Int) :
    (executeMarketOrder g player side size).trades
      = fillsToTrades side player g.trades.length (walkFills size (sortedOpp g side)) := by
  rw [executeMarketOrder_def]
  simpa using foldMatch_trades side player (sortedOpp g side)
    { g := g, remaining := size, trades := [] }

lemma executeMarketOrder_orders_sub (g : GameState) (player : String) (side : Side)
    (size : Int) :
    ∀ x ∈ (executeMarketOrder g player side size).g.orders, ∃ y ∈ g.orders,
      x.id = y.id ∧ x.player = y.player ∧ x.side = y.side ∧ x.price = y.price := by
  rw [executeMarketOrder_def]
  simpa using foldMatch_orders_sub side player (sortedOpp g side)
    { g := g, remaining := size, trades := [] }

lemma executeMarketOrder_zero_fill (g : GameState) (player : String) (side : Side)
    (size : Int) (hsz : sizePos g.orders) (hs : 0 < size)
    (h : (executeMarketOrder g player side size).remaining = size) :
    executeMarketOrder g player side size =
      { g := g, trades := [], remaining := size } := by
  have hnil : sortedOpp g side = [] := by
    apply foldMatch_nil_of_remaining_eq side player (sortedOpp g side)
      { g := g, remaining := size, trades := [] }
      (fun o ho => hsz o (mem_sortedOpp.mp ho).1) hs
    exact h
  rw [executeMarketOrder_def, hnil]
  rfl

lemma fillsToTrades_sizes (side : Side) (player : String) :
    ∀ (fills : List (Order × Int)) (k : Nat),
      sumTradeSizes (fillsToTrades side player k fills) = (fills.map (·.2)).sum := by
  intro fills
  induction fills with
  | nil => intro k; rfl
  | cons f rest ih =>
    intro k
    simp only [fillsToTrades, sumTradeSizes, List.map_cons, List.sum_cons] at *
    rw [← ih (k + 1)]

lemma executeMarketOrder_filled (g : GameState) (player : String) (side : Side)
    (size : Int) :
    sumTradeSizes (executeMarketOrder g player side size).trades
      = size - (executeMarketOrder g player side size).remaining := by
  rw [executeMarketOrder_trades, fillsToTrades_sizes, executeMarketOrder_def]
  have := foldMatch_remaining_eq side player (sortedOpp g side)
    { g := g, remaining := size, trades := [] }
  simp only at this ⊢
  omega

-- ## Further lemmas for `executeMarketOrder`

lemma executeMarketOrder_book_wf (g : GameState) (player : String) (side : Side)
    (size : Int) (hnd : idsNodup g.orders) (hsz : sizePos g.orders) :
    idsNodup (executeMarketOrder g player side size).g.orders
    ∧ sizePos (executeMarketOrder g player side size).g.orders := by
  rw [executeMarketOrder_def]
  simpa using foldMatch_book_wf side player (sortedOpp g side)
    { g := g, remaining := size, trades := [] } hnd hsz
    (fun o ho => (mem_sortedOpp.mp ho).1) (sortedOpp_ids_nodup side hnd)

lemma executeMarketOrder_sumQty (g : GameState) (player : String) (side : Side)
    (size : Int) :
    sumQty (executeMarketOrder g player side size).g.positions = sumQty g.positions := by
  rw [executeMarketOrder_def]
  simpa using foldMatch_sumQty side player (sortedOpp g side)
    { g := g, remaining := size, trades := [] }

lemma executeMarketOrder_g_fields (g : GameState) (player : String) (side : Side)
    (size : Int) :
    (executeMarketOrder g player side size).g.players = g.players
    ∧ (executeMarketOrder g player side size).g.orderIdCounter = g.orderIdCounter
    ∧ (executeMarketOrder g player side size).g.settledPrice = g.settledPrice
    ∧ (executeMarketOrder g player side size).g.turnOrder = g.turnOrder
    ∧ (executeMarketOrder g player side size).g.currentTurnIndex = g.currentTurnIndex
    ∧ (executeMarketOrder g player side size).g.priceHistory = g.priceHistory := by
  rw [executeMarketOrder_def]
  simpa using foldMatch_g_fields side player (sortedOpp g side)
    { g := g, remaining := size, trades := [] }

-- ## Settlement lemmas

lemma settleOnePos_quantity (t : Rat) (e : String × Position) :
    (settleOnePos t e).2.quantity = 0 := by
  simp only [settleOnePos]
  split
  · rfl
  · next h =>
    push_neg at h
    exact h

lemma settleOnePos_of_flat (t : Rat) (e : String × Position)
    (h : e.2.quantity = 0) : settleOnePos t e = e := by
  simp only [settleOnePos]
  rw [if_neg (by simpa using h)]

lemma sumQty_settled (t : Rat) (ps : List (String × Position)) :
    sumQty (ps.map (settleOnePos t)) = 0 := by
  unfold sumQty
  rw [List.map_map]
  apply List.sum_eq_zero
  intro q hq
  rcases List.mem_map.mp hq with ⟨e, _, he⟩
  rw [← he]
  exact settleOnePos_quantity t e

lemma settleContract_of_nonzero (g : GameState)
    (h : (g.players.map (fun e => e.2.siblingCount)).sum ≠ 0) :
    settleContract g = some
      ({ g with settledPrice := some ((g.players.map (fun e => e.2.siblingCount)).sum),
                positions := g.positions.map
                  (settleOnePos ((g.players.map (fun e => e.2.siblingCount)).sum)) },
        (g.players.map (fun e => e.2.siblingCount)).sum) := by
  unfold settleContract
  rw [if_neg h]

lemma settleContract_of_zero (g : GameState)
    (h : (g.players.map (fun e => e.2.siblingCount)).sum = 0) :
    settleContract g = none := by
  unfold settleContract
  rw [if_pos h]

-- ## Generic preservation helpers

lemma noCross_of_origins {l l' : List Order}
    (h : ∀ x ∈ l', ∃ y ∈ l, x.side = y.side ∧ x.price = y.price)
    (hc : noCross l) : noCross l' := by
  intro b hb a ha hbside haside
  obtain ⟨yb, hyb, b1, b2⟩ := h b hb
  obtain ⟨ya, hya, a1, a2⟩ := h a ha
  rw [b2, a2]
  exact hc yb hyb ya hya (b1 ▸ hbside) (a1 ▸ haside)

lemma noCross_filter (l : List Order) (p : Order → Bool) (hc : noCross l) :
    noCross (l.filter p) :=
  fun b hb a ha => hc b (List.mem_filter.mp hb).1 a (List.mem_filter.mp ha).1

lemma idsNodup_filter (l : List Order) (p : Order → Bool) (h : idsNodup l) :
    idsNodup (l.filter p) :=
  List.Nodup.sublist ((List.filter_sublist _).map _) h

lemma sizePos_filter (l : List Order) (p : Order → Bool) (h : sizePos l) :
    sizePos (l.filter p) :=
  fun o ho => h o (List.mem_filter.mp ho).1

lemma advanceTurn_fields (g : GameState) :
    (advanceTurn g).orders = g.orders ∧ (advanceTurn g).positions = g.positions
    ∧ (advanceTurn g).orderIdCounter = g.orderIdCounter
    ∧ (advanceTurn g).players = g.players
    ∧ (advanceTurn g).trades = g.trades
    ∧ (advanceTurn g).settledPrice = g.settledPrice
    ∧ (advanceTurn g).turnOrder = g.turnOrder := by
  unfold advanceTurn capturePriceHistory
  split
  · split
    · exact ⟨rfl, rfl, rfl, rfl, rfl, rfl, rfl⟩
    · exact ⟨rfl, rfl, rfl, rfl, rfl, rfl, rfl⟩
  · exact ⟨rfl, rfl, rfl, rfl, rfl, rfl, rfl⟩

lemma settleContract_some {g g' : GameState} {p : Rat}
    (h : settleContract g = some (g', p)) :
    p = (g.players.map (fun e => e.2.siblingCount)).sum ∧ p ≠ 0
    ∧ g' = { g with settledPrice := some p,
                    positions := g.positions.map (settleOnePos p) } := by
  simp only [settleContract] at h
  split at h
  · cases h
  · next hne =>
    rw [Option.some_inj, Prod.mk.injEq] at h
    obtain ⟨h1, h2⟩ := h
    subst h2
    exact ⟨rfl, hne, h1.symm⟩

-- ## Invariant preservation per handler

lemma engineInv_initGame : EngineInv initGame := by
  constructor
  · intro b hb
    exact absurd hb (List.not_mem_nil b)
  · rfl
  · intro o ho
    exact absurd ho (List.not_mem_nil o)
  · exact List.nodup_nil
  · intro o ho
    exact absurd ho (List.not_mem_nil o)

lemma engineInv_ensure (g : GameState) (player : String) (hinv : EngineInv g) :
    EngineInv { g with positions := ensurePosition g.positions player } := by
  constructor
  · exact hinv.cross
  · rw [show ({ g with positions := ensurePosition g.positions player } : GameState).positions
        = ensurePosition g.positions player from rfl, sumQty_ensure]
    exact hinv.zero
  · exact hinv.sz
  · exact hinv.nodup
  · exact hinv.bounded

lemma inv_submitLimit (e : EngineState) (player : String) (side : Side) (price : Rat)
    (size : Int) (hinv : EngineInv e.game) :
    EngineInv (submitLimitOrder e player side price size).2.game := by
  simp only [submitLimitOrder]
  split
  · exact hinv
  split
  · exact hinv
  split
  · exact hinv
  have hinv1 := engineInv_ensure e.game player hinv
  split
  · exact hinv1
  split
  · exact hinv1
  split
  · exact hinv1
  · -- accepted: match, advance turn
    set g1 : GameState := { e.game with positions := ensurePosition e.game.positions player }
      with hg1
    set g2 : GameState := { g1 with orderIdCounter := g1.orderIdCounter + 1 } with hg2
    set order : Order :=
      { id := g1.orderIdCounter, player := player, side := side, price := price, size := size }
      with horder
    have hc1 : g1.orderIdCounter = e.game.orderIdCounter := rfl
    have hc2 : g2.orderIdCounter = g1.orderIdCounter + 1 := rfl
    have hcross2 : noCross g2.orders := hinv1.cross
    have hsz2 : sizePos g2.orders := hinv1.sz
    have hnd2 : idsNodup g2.orders := hinv1.nodup
    have hfresh : ∀ x ∈ g2.orders, x.id ≠ order.id := by
      intro x hx
      have := hinv1.bounded x hx
      simp only [horder]
      omega
    have hwf := matchOrders_book_wf g2 order hnd2 hsz2 hfresh
    have hadv := advanceTurn_fields (matchOrders g2 order).1
    have hfields := matchOrders_g_fields g2 order
    constructor
    · rw [hadv.1]
      exact matchOrders_noCross g2 order hcross2 hsz2
    · rw [hadv.2.1, matchOrders_sumQty]
      have : sumQty g2.positions = sumQty e.game.positions := by
        simp only [hg2, hg1]
        exact sumQty_ensure _ _
      rw [this]
      exact hinv.zero
    · rw [hadv.1]
      exact hwf.2.1
    · rw [hadv.1]
      exact hwf.1
    · intro o ho
      rw [hadv.1] at ho
      rw [hadv.2.2.1, hfields.2.1]
      rcases hwf.2.2 o ho with h | ⟨y, hy, hid⟩
      · simp only [h, horder, hg2]
        omega
      · have := hinv1.bounded y hy
        simp only [hg2]
        omega

lemma inv_submitMarket (e : EngineState) (player : String) (side : Side)
    (size : Int) (hinv : EngineInv e.game) :
    EngineInv (submitMarketOrder e player side size).2.game := by
  simp only [submitMarketOrder]
  split
  · exact hinv
  split
  · exact hinv
  split
  · exact hinv
  · set g1 : GameState := { e.game with positions := ensurePosition e.game.positions player }
      with hg1
    have hinv1 := engineInv_ensure e.game player hinv
    have hwf := executeMarketOrder_book_wf g1 player side size hinv1.nodup hinv1.sz
    have hsub := executeMarketOrder_orders_sub g1 player side size
    have hfields := executeMarketOrder_g_fields g1 player side size
    have hres : EngineInv (executeMarketOrder g1 player side size).g := by
      constructor
      · exact noCross_of_origins
          (fun x hx => by
            obtain ⟨y, hy, _, _, h3, h4⟩ := hsub x hx
            exact ⟨y, hy, h3, h4⟩)
          hinv1.cross
      · rw [executeMarketOrder_sumQty]
        exact hinv1.zero
      · exact hwf.2
      · exact hwf.1
      · intro o ho
        obtain ⟨y, hy, h1, _, _, _⟩ := hsub o ho
        rw [hfields.2.1, h1]
        exact hinv1.bounded y hy
    split
    · exact hres
    · have hadv := advanceTurn_fields (executeMarketOrder g1 player side size).g
      constructor
      · rw [hadv.1]
        exact hres.cross
      · rw [hadv.2.1]
        exact hres.zero
      · rw [hadv.1]
        exact hres.sz
      · rw [hadv.1]
        exact hres.nodup
      · intro o ho
        rw [hadv.1] at ho
        rw [hadv.2.2.1]
        exact hres.bounded o ho

lemma inv_addPlayer (e : EngineState) (name : String) (count : Rat)
    (hinv : EngineInv e.game) : EngineInv (addPlayer e name count).2.game := by
  simp only [addPlayer]
  split
  · exact hinv
  · split
    · exact ⟨hinv.cross, hinv.zero, hinv.sz, hinv.nodup, hinv.bounded⟩
    · constructor
      · exact hinv.cross
      · rw [show sumQty (e.game.positions ++ [(name, zeroPosition)])
            = sumQty e.game.positions + sumQty [(name, zeroPosition)] from
            sumQty_append _ _]
        simp [sumQty, zeroPosition]
        exact hinv.zero
      · exact hinv.sz
      · exact hinv.nodup
      · exact hinv.bounded

lemma inv_toggleReveal (e : EngineState) (name : String)
    (hinv : EngineInv e.game) : EngineInv (toggleReveal e name).2.game := by
  simp only [toggleReveal]
  split
  · exact hinv
  · split
    · exact hinv
    · exact ⟨hinv.cross, hinv.zero, hinv.sz, hinv.nodup, hinv.bounded⟩

lemma inv_cancelOrders (e : EngineState) (player : String)
    (hinv : EngineInv e.game) : EngineInv (cancelPlayerOrders e player).2.game := by
  simp only [cancelPlayerOrders]
  split
  · exact hinv
  split
  · exact hinv
  · set g1 : GameState :=
      { e.game with orders := e.game.orders.filter (fun o => o.player != player) }
      with hg1
    have hinv1 : EngineInv g1 := by
      constructor
      · exact noCross_filter _ _ hinv.cross
      · exact hinv.zero
      · exact sizePos_filter _ _ hinv.sz
      · exact idsNodup_filter _ _ hinv.nodup
      · intro o ho
        exact hinv.bounded o (List.mem_filter.mp ho).1
    split
    · have hadv := advanceTurn_fields g1
      constructor
      · rw [hadv.1]
        exact hinv1.cross
      · rw [hadv.2.1]
        exact hinv1.zero
      · rw [hadv.1]
        exact hinv1.sz
      · rw [hadv.1]
        exact hinv1.nodup
      · intro o ho
        rw [hadv.1] at ho
        rw [hadv.2.2.1]
        exact hinv1.bounded o ho
    · exact hinv1

lemma inv_cancelOrderById (e : EngineState) (orderId : Nat)
    (hinv : EngineInv e.game) : EngineInv (cancelOrderById e orderId).2.game := by
  simp only [cancelOrderById]
  split
  · exact hinv
  · have hinv1 : EngineInv
        { e.game with orders := e.game.orders.filter (fun o => o.id != orderId) } := by
      constructor
      · exact noCross_filter _ _ hinv.cross
      · exact hinv.zero
      · exact sizePos_filter _ _ hinv.sz
      · exact idsNodup_filter _ _ hinv.nodup
      · intro o ho
        exact hinv.bounded o (List.mem_filter.mp ho).1
    split
    · exact hinv1
    · exact hinv1

lemma inv_reset (e : EngineState) : EngineInv (resetGame e).2.game :=
  engineInv_initGame

lemma inv_settle (e : EngineState) (hinv : EngineInv e.game) :
    EngineInv (settleHandler e).2.game := by
  rcases h : settleContract e.game with _ | ⟨g', p⟩
  · simp only [settleHandler, h]
    exact hinv
  · simp only [settleHandler, h]
    obtain ⟨h1, h2, h3⟩ := settleContract_some h
    subst h3
    exact ⟨hinv.cross, sumQty_settled _ _, hinv.sz, hinv.nodup, hinv.bounded⟩

lemma inv_setTurnOrder (e : EngineState) (lst : List String)
    (hinv : EngineInv e.game) : EngineInv (setTurnOrder e lst).2.game := by
  simp only [setTurnOrder]
  split
  · exact hinv
  · exact ⟨hinv.cross, hinv.zero, hinv.sz, hinv.nodup, hinv.bounded⟩

lemma inv_setCurrentTurn (e : EngineState) (player : Option String)
    (hinv : EngineInv e.game) : EngineInv (setCurrentTurn e player).2.game := by
  rcases player with _ | n
  · exact ⟨hinv.cross, hinv.zero, hinv.sz, hinv.nodup, hinv.bounded⟩
  · simp only [setCurrentTurn]
    split
    · exact ⟨hinv.cross, hinv.zero, hinv.sz, hinv.nodup, hinv.bounded⟩
    · exact hinv

lemma inv_startTurns (e : EngineState) (hinv : EngineInv e.game) :
    EngineInv (startTurns e).2.game := by
  simp only [startTurns]
  split
  · exact hinv
  · exact ⟨hinv.cross, hinv.zero, hinv.sz, hinv.nodup, hinv.bounded⟩

lemma inv_stopTurns (e : EngineState) (hinv : EngineInv e.game) :
    EngineInv (stopTurns e).2.game :=
  ⟨hinv.cross, hinv.zero, hinv.sz, hinv.nodup, hinv.bounded⟩

lemma applyOp_inv (e : EngineState) (op : Op) (hinv : EngineInv e.game) :
    EngineInv (applyOp e op).2.game := by
  cases op with
  | addPlayer name count => exact inv_addPlayer e name count hinv
  | toggleReveal name => exact inv_toggleReveal e name hinv
  | submitLimit player side price size => exact inv_submitLimit e player side price size hinv
  | submitMarket player side size => exact inv_submitMarket e player side size hinv
  | cancelOrders player => exact inv_cancelOrders e player hinv
  | cancelOrder orderId => exact inv_cancelOrderById e orderId hinv
  | reset => exact inv_reset e
  | settle => exact inv_settle e hinv
  | setTurnOrder lst => exact inv_setTurnOrder e lst hinv
  | setCurrentTurn player => exact inv_setCurrentTurn e player hinv
  | startTurns => exact inv_startTurns e hinv
  | stopTurns => exact inv_stopTurns e hinv

/-- Every reachable state satisfies the engine invariant. -/
lemma reachable_inv {e : EngineState} (h : Reachable e) : EngineInv e.game := by
  induction h with
  | init => exact engineInv_initGame
  | step op _ ih => exact applyOp_inv _ op ih

-- ## A small concrete trading session used to witness the reachability
-- theorems: Alice and Bob register, Alice asks 2@5, Bob's bid 1@5 crosses.

def demoState : EngineState :=
  (applyOp (applyOp (applyOp (applyOp initState
    (Op.addPlayer "Alice" 2)).2
    (Op.addPlayer "Bob" 3)).2
    (Op.submitLimit "Alice" Side.ask 5 2)).2
    (Op.submitLimit "Bob" Side.bid 5 1)).2

lemma demoState_reachable : Reachable demoState :=
  Reachable.step _ (Reachable.step _ (Reachable.step _ (Reachable.step _ Reachable.init)))

/-- C3: in every engine state reachable from the empty initial state, the book
is never crossed after matching: no resting bid's price is greater than or
equal to any resting ask's price. -/
theorem book_never_crossed (e : EngineState) (h : Reachable e) :
    noCross e.game.orders :=
  (reachable_inv h).cross

theorem book_never_crossed_witness : noCross demoState.game.orders :=
  book_never_crossed demoState demoState_reachable

/-- C4: in every reachable engine state (in particular every pre-settlement
one) the participants' position quantities sum to 0: each trade updates the
buyer by +size and the seller by -size. -/
theorem positions_zero_sum (e : EngineState) (h : Reachable e) :
    sumQty e.game.positions = 0 :=
  (reachable_inv h).zero

theorem positions_zero_sum_witness : sumQty demoState.game.positions = 0 :=
  positions_zero_sum demoState demoState_reachable

/-- C10: when a trade's buyer and seller are the same participant (the engine
never prevents an aggressor order from matching the same player's resting
order), the buyer-side `updatePosition(+size)` followed by the seller-side
`updatePosition(-size)` at the same price leaves that participant's net
quantity exactly unchanged. -/
theorem self_trade_quantity_unchanged (ps : List (String × Position))
    (n : String) (s : Int) (price : Rat) :
    qtyOf (updatePosition (updatePosition ps n s price) n (-s) price) n = qtyOf ps n := by
  rw [updatePosition_qtyOf, updatePosition_qtyOf]
  ring

/-- C1 (counterexample): the claim predicts that a buy (+1) at price 4 against
a short position (quantity = -1, costBasis = -5, so avgCost = 5) realizes
closedSize * (price - avgCost) * sign(quantity) = 1 * (4 - 5) * (-1) = 1 and
reduces the cost basis to 0.  The source's `updatePosition` instead takes the
unconditional buy branch: realizedPnL stays 0 and costBasis extends to -1. -/
theorem buy_against_short_realizes_nothing :
    lookupPos (updatePosition
        [("S", { quantity := -1, totalCost := -5, realizedPnL := 0, cash := 0 })] "S" 1 4) "S"
      = some { quantity := 0, totalCost := -1, realizedPnL := 0, cash := -4 }
    ∧ (0 : Rat) + (1 : Rat) * ((4 : Rat) - (-5 : Rat)/(-1 : Rat)) * (-1) = 1
    ∧ (0 : Rat) ≠ 1 := by
  refine ⟨?_, by norm_num, by norm_num⟩
  norm_num [updatePosition, ensurePosition, lookupPos, setFirstPos, applyPosition]

/-- C1 (amended): `updatePosition` realizes PnL only on a sell
(signedQuantity < 0) against a long position (quantity > 0): there
realizedPnL increases by closedSize * (price - avgCost) with
avgCost = costBasis / quantity and closedSize = min(|signedQuantity|,
quantity), quantity decreases by |signedQuantity| and costBasis by
closedSize * avgCost plus the flip residual at the trade price.  A buy
(signedQuantity > 0) always extends the position — costBasis += signedQuantity
* price, quantity += signedQuantity — and realizes nothing, even against a
short position. -/
theorem updatePosition_reduce_characterization (pos : Position) (q : Int) (price : Rat) :
    (0 < q → applyPosition pos q price =
      { pos with cash := pos.cash - (q : Rat) * price,
                 totalCost := pos.totalCost + (q : Rat) * price,
                 quantity := pos.quantity + q })
    ∧ (q < 0 → 0 < pos.quantity →
        (applyPosition pos q price).realizedPnL
          = pos.realizedPnL + ((min (-q) pos.quantity : Int) : Rat)
              * (price - pos.totalCost / (pos.quantity : Rat))
        ∧ (applyPosition pos q price).quantity = pos.quantity + q
        ∧ (applyPosition pos q price).totalCost
          = pos.totalCost - ((min (-q) pos.quantity : Int) : Rat)
              * (pos.totalCost / (pos.quantity : Rat))
            - (((-q) - min (-q) pos.quantity : Int) : Rat) * price
        ∧ (applyPosition pos q price).cash = pos.cash - (q : Rat) * price) := by
  constructor
  · intro hq
    simp only [applyPosition, if_pos hq]
  · intro hq hpos
    have hq' : ¬ 0 < q := by omega
    simp only [applyPosition, if_neg hq', if_pos hpos,
      abs_of_nonpos (le_of_not_lt hq')]
    by_cases h3 : min (-q) pos.quantity < -q
    · rw [if_pos h3]
      refine ⟨rfl, ?_, ?_, rfl⟩
      · show pos.quantity - min (-q) pos.quantity - (-q - min (-q) pos.quantity)
          = pos.quantity + q
        omega
      · show pos.totalCost - (min (-q) pos.quantity : Int)
            * (pos.totalCost / (pos.quantity : Rat))
            - ((-q - min (-q) pos.quantity : Int) : Rat) * price = _
        ring
    · rw [if_neg h3]
      have hmin : min (-q) pos.quantity = -q := by omega
      refine ⟨rfl, ?_, ?_, rfl⟩
      · show pos.quantity - min (-q) pos.quantity = pos.quantity + q
        omega
      · show pos.totalCost - (min (-q) pos.quantity : Int)
            * (pos.totalCost / (pos.quantity : Rat)) = _
        rw [hmin]
        push_cast
        ring

theorem updatePosition_reduce_characterization_witness :
    (-1 : Int) < 0 ∧ (0 : Int) < (2 : Int)
    ∧ (applyPosition { quantity := 2, totalCost := 10, realizedPnL := 0, cash := 0 }
        (-1) 6).realizedPnL = 1
    ∧ (applyPosition { quantity := 2, totalCost := 10, realizedPnL := 0, cash := 0 }
        (-1) 6).quantity = 1 := by
  have h := (updatePosition_reduce_characterization
    { quantity := 2, totalCost := 10, realizedPnL := 0, cash := 0 } (-1) 6).2
    (by norm_num) (by norm_num)
  refine ⟨by norm_num, by norm_num, ?_, h.2.1⟩
  rw [h.1]
  norm_num

/-- C6: when a settle call has just succeeded, settling again succeeds with
the same settlement price and returns the very same state: every
participant's cash, realizedPnL, quantity and costBasis are unchanged, so two
consecutive settles equal one. -/
theorem settle_idempotent (g g' : GameState) (p : Rat)
    (h : settleContract g = some (g', p)) :
    settleContract g' = some (g', p) := by
  obtain ⟨h1, h2, h3⟩ := settleContract_some h
  have hplayers : g'.players = g.players := by rw [h3]
  have htot : (g'.players.map (fun e => e.2.siblingCount)).sum = p := by
    rw [hplayers, ← h1]
  have hflat : ∀ ent ∈ g'.positions, ent.2.quantity = 0 := by
    intro ent hent
    rw [h3] at hent
    rcases List.mem_map.mp hent with ⟨e0, _, he0⟩
    rw [← he0]
    exact settleOnePos_quantity p e0
  have hmapid : g'.positions.map (settleOnePos p) = g'.positions := by
    conv_rhs => rw [← List.map_id g'.positions]
    apply List.map_congr_left
    intro ent hent
    exact settleOnePos_of_flat p ent (hflat ent hent)
  rw [settleContract_of_nonzero g' (by rw [htot]; exact h2), htot, hmapid]
  have hsp : g'.settledPrice = some p := by rw [h3]
  rw [← hsp]

theorem settle_idempotent_witness :
    settleContract
      { initGame with
        players := [("Alice", { siblingCount := 4, revealed := false })],
        positions := [("Alice", { quantity := 3, totalCost := 6, realizedPnL := 0, cash := -6 })] }
      = some
        ({ initGame with
            players := [("Alice", { siblingCount := 4, revealed := false })],
            positions := [("Alice", { quantity := 0, totalCost := 0, realizedPnL := 6, cash := 6 })],
            settledPrice := some 4 }, 4)
    ∧ settleContract
        { initGame with
            players := [("Alice", { siblingCount := 4, revealed := false })],
            positions := [("Alice", { quantity := 0, totalCost := 0, realizedPnL := 6, cash := 6 })],
            settledPrice := some 4 }
      = some
        ({ initGame with
            players := [("Alice", { siblingCount := 4, revealed := false })],
            positions := [("Alice", { quantity := 0, totalCost := 0, realizedPnL := 6, cash := 6 })],
            settledPrice := some 4 }, 4) := by
  have h1 : settleContract
      { initGame with
        players := [("Alice", { siblingCount := 4, revealed := false })],
        positions := [("Alice", { quantity := 3, totalCost := 6, realizedPnL := 0, cash := -6 })] }
      = some
        ({ initGame with
            players := [("Alice", { siblingCount := 4, revealed := false })],
            positions := [("Alice", { quantity := 0, totalCost := 0, realizedPnL := 6, cash := 6 })],
            settledPrice := some 4 }, 4) := by
    norm_num [settleContract, settleOnePos, initGame]
  exact ⟨h1, settle_idempotent _ _ _ h1⟩

/-- C9: while turn mode is active (non-empty turnOrder, currentTurnIndex ≥ 0
and in range), every shape-valid submitOrder (limit or market) or
cancelOrders request from a participant other than
turnOrder[currentTurnIndex] is rejected with the current player's identity
attached, and the engine state — version included — is returned unchanged. -/
theorem turn_gate_rejects_others (e : EngineState) (player cp : String)
    (side : Side) (price : Rat) (size : Int)
    (hactive : 0 < e.game.turnOrder.length) (hidx : 0 ≤ e.game.currentTurnIndex)
    (hcp : e.game.turnOrder.get? e.game.currentTurnIndex.toNat = some cp)
    (hne : player ≠ cp) (hname : player ≠ "") (hsize : 0 < size) :
    submitLimitOrder e player side price size = (.errNotYourTurn (some cp), e)
    ∧ submitMarketOrder e player side size = (.errNotYourTurn (some cp), e)
    ∧ cancelPlayerOrders e player = (.errNotYourTurn (some cp), e) := by
  have hviol : turnViolation e.game player = some (some cp) := by
    unfold turnViolation
    rw [if_pos ⟨hactive, hidx⟩, hcp]
    show (if player ≠ cp then some (some cp) else none) = some (some cp)
    rw [if_pos hne]
  refine ⟨?_, ?_, ?_⟩
  · unfold submitLimitOrder
    rw [if_neg hname, if_neg (not_le.mpr hsize), hviol]
  · unfold submitMarketOrder
    rw [if_neg hname, if_neg (not_le.mpr hsize), hviol]
  · unfold cancelPlayerOrders
    rw [if_neg hname, hviol]

theorem turn_gate_rejects_others_witness :
    submitLimitOrder
      { game := { initGame with turnOrder := ["A", "B"], currentTurnIndex := 0 }, version := 5 }
      "B" Side.bid 3 1
      = (.errNotYourTurn (some "A"),
        { game := { initGame with turnOrder := ["A", "B"], currentTurnIndex := 0 }, version := 5 })
    ∧ cancelPlayerOrders
        { game := { initGame with turnOrder := ["A", "B"], currentTurnIndex := 0 }, version := 5 }
        "B"
      = (.errNotYourTurn (some "A"),
        { game := { initGame with turnOrder := ["A", "B"], currentTurnIndex := 0 }, version := 5 }) := by
  have h := turn_gate_rejects_others
    { game := { initGame with turnOrder := ["A", "B"], currentTurnIndex := 0 }, version := 5 }
    "B" "A" Side.bid 3 1 (by simp [initGame]) (by simp [initGame]) (by simp [initGame])
    (by simp) (by simp) (by norm_num)
  exact ⟨h.1, h.2.2⟩


lemma submitMarketOrder_turnOk (e : EngineState) (player : String) (side : Side)
    (size : Int) (g1 : GameState)
    (hg1 : g1 = { e.game with positions := ensurePosition e.game.positions player })
    (hname : player ≠ "") (hsize : 0 < size)
    (hturn : turnViolation e.game player = none) :
    submitMarketOrder e player side size =
      (if 0 < (executeMarketOrder g1 player side size).remaining
          ∧ size - (executeMarketOrder g1 player side size).remaining = 0
       then (.errInsufficientLiquidity,
          { e with game := (executeMarketOrder g1 player side size).g })
       else (.ok (executeMarketOrder g1 player side size).trades,
          { game := advanceTurn (executeMarketOrder g1 player side size).g,
            version := e.version + 1 })) := by
  subst hg1
  unfold submitMarketOrder
  rw [if_neg hname, if_neg (not_le.mpr hsize), hturn]

/-- C7: for every shape-valid market order that passes the turn gate, on a
book with positive resting sizes: a zero fill is rejected with the
insufficient-liquidity error and records no trade (the state keeps the old
trade log); any positive fill (including a partial one) succeeds, reporting
the emitted trades, whose sizes sum to the filled quantity (so the unfilled
remainder size - filled is determined for the caller); and in all cases the
market order is never inserted into the book — every resting order in the
resulting book descends from one already in the old book. -/
theorem market_order_semantics (e : EngineState) (player : String) (side : Side)
    (size : Int) (g1 : GameState)
    (hg1 : g1 = { e.game with positions := ensurePosition e.game.positions player })
    (hname : player ≠ "") (hsize : 0 < size)
    (hturn : turnViolation e.game player = none)
    (hsz : sizePos e.game.orders) :
    ((executeMarketOrder g1 player side size).remaining = size →
      submitMarketOrder e player side size = (.errInsufficientLiquidity, { e with game := g1 })
      ∧ (submitMarketOrder e player side size).2.game.trades = e.game.trades)
    ∧ ((executeMarketOrder g1 player side size).remaining < size →
        (submitMarketOrder e player side size).1
          = .ok (executeMarketOrder g1 player side size).trades
        ∧ sumTradeSizes (executeMarketOrder g1 player side size).trades
          = size - (executeMarketOrder g1 player side size).remaining)
    ∧ (∀ x ∈ (submitMarketOrder e player side size).2.game.orders, ∃ y ∈ e.game.orders,
        x.id = y.id ∧ x.player = y.player ∧ x.side = y.side ∧ x.price = y.price) := by
  have hred := submitMarketOrder_turnOk e player side size g1 hg1 hname hsize hturn
  have hszg1 : sizePos g1.orders := by rw [hg1]; exact hsz
  have hordg1 : g1.orders = e.game.orders := by rw [hg1]
  refine ⟨?_, ?_, ?_⟩
  · intro hrem
    have hz := executeMarketOrder_zero_fill g1 player side size hszg1 hsize hrem
    rw [hred, hz]
    have hcond : 0 < ({ g := g1, trades := [], remaining := size } : MarketResult).remaining
        ∧ size - ({ g := g1, trades := [], remaining := size } : MarketResult).remaining = 0 :=
      ⟨hsize, sub_self size⟩
    exact ⟨by rw [if_pos hcond], by rw [if_pos hcond, hg1]⟩
  · intro hrem
    rw [hred, if_neg (by omega)]
    exact ⟨rfl, executeMarketOrder_filled g1 player side size⟩
  · intro x hx
    rw [hred] at hx
    by_cases hcond : 0 < (executeMarketOrder g1 player side size).remaining
        ∧ size - (executeMarketOrder g1 player side size).remaining = 0
    · rw [if_pos hcond] at hx
      have := executeMarketOrder_orders_sub g1 player side size x hx
      rw [hordg1] at this
      exact this
    · rw [if_neg hcond] at hx
      have hadv := (advanceTurn_fields (executeMarketOrder g1 player side size).g).1
      have hx' : x ∈ (advanceTurn (executeMarketOrder g1 player side size).g).orders := hx
      rw [hadv] at hx'
      have := executeMarketOrder_orders_sub g1 player side size x hx'
      rw [hordg1] at this
      exact this

def c7state : EngineState :=
  { game := { initGame with
      orders := [{ id := 1, player := "A", side := Side.ask, price := 5, size := 1 }],
      positions := [("A", zeroPosition), ("B", zeroPosition)],
      orderIdCounter := 2 },
    version := 3 }

theorem market_order_semantics_witness :
    (submitMarketOrder c7state "B" Side.bid 2).1
      = .ok [{ id := 1, buyer := "B", seller := "A", price := 5, size := 1 }]
    ∧ sumTradeSizes (executeMarketOrder c7state.game "B" Side.bid 2).trades = 2 - 1 := by
  have hg1 : c7state.game
      = { c7state.game with positions := ensurePosition c7state.game.positions "B" } := by
    norm_num [ensurePosition, lookupPos, c7state, initGame]
  have hexe : executeMarketOrder c7state.game "B" Side.bid 2 =
      { g := { c7state.game with
          orders := [],
          trades := [{ id := 1, buyer := "B", seller := "A", price := 5, size := 1 }],
          positions := [("A", { quantity := -1, totalCost := -5, realizedPnL := 0, cash := 5 }),
                        ("B", { quantity := 1, totalCost := 5, realizedPnL := 0, cash := -5 })] },
        trades := [{ id := 1, buyer := "B", seller := "A", price := 5, size := 1 }],
        remaining := 1 } := by
    simp only [executeMarketOrder, sortedOpp, oppRel, matchStep, emittedTrade, bookAfterFill,
      ledgerAfterFill, updatePosition, ensurePosition, lookupPos, setFirstPos, applyPosition,
      zeroPosition, c7state, initGame, List.insertionSort, List.orderedInsert, List.foldl,
      List.filter, List.find?, List.map, Option.map, Option.isSome]
    norm_num
  have h := market_order_semantics c7state "B" Side.bid 2 c7state.game hg1
    (by decide) (by norm_num) rfl (by unfold sizePos; decide)
  have h2 := h.2.1 (by rw [hexe]; norm_num)
  constructor
  · rw [h2.1, hexe]
  · rw [h2.2, hexe]

lemma walkFills_mem : ∀ (os : List Order) (r : Int) (p : Order × Int),
    p ∈ walkFills r os → p.1 ∈ os := by
  intro os
  induction os with
  | nil => intro r p hp; exact absurd hp (by simp [walkFills])
  | cons o os ih =>
    intro r p hp
    by_cases hr : r ≤ 0
    · rw [walkFills, if_pos hr] at hp
      exact absurd hp (List.not_mem_nil p)
    · rw [walkFills, if_neg hr] at hp
      rcases List.mem_cons.mp hp with rfl | hp
      · exact List.mem_cons_self _ _
      · exact List.mem_cons_of_mem _ (ih _ p hp)

/-- C5: for an admitted limit order on a well-formed book, matching walks
exactly the compatible opposite-side resting orders, ordered best price first
with ties broken by smallest id; the emitted trades are precisely the spec's
walk — one trade per consumed resting order, of size min(remaining, size), at
the resting (passive) order's price, never the aggressor's; and a walked
resting order is removed from the book exactly when its size reaches 0,
otherwise it remains with its size reduced by the fill. -/
theorem limit_match_price_time_priority (g : GameState) (n : Order)
    (hnd : idsNodup g.orders) (_hsz : sizePos g.orders)
    (hfresh : ∀ x ∈ g.orders, x.id ≠ n.id) :
    (sortedCompat g n).Perm (g.orders.filter (fun o => compatB n.side n.price o))
    ∧ (sortedCompat g n).Sorted (oppRel n.side)
    ∧ (matchOrders g n).2 = fillsToTrades n.side n.player g.trades.length
        (walkFills n.size (sortedCompat g n))
    ∧ (∀ p ∈ walkFills n.size (sortedCompat g n),
        (p.2 = p.1.size → ∀ x ∈ (matchOrders g n).1.orders, x.id ≠ p.1.id)
        ∧ (p.2 ≠ p.1.size →
            { p.1 with size := p.1.size - p.2 } ∈ (matchOrders g n).1.orders)) := by
  refine ⟨sortedCompat_perm g n, List.sorted_insertionSort _ _, matchOrders_trades g n, ?_⟩
  have hfills := foldMatch_fills n.side n.player (sortedCompat g n)
    { g := g, remaining := n.size, trades := [] } hnd
    (fun o ho => (mem_sortedCompat.mp ho).1) (sortedCompat_ids_nodup n hnd)
  intro p hp
  have hp1 : p.1 ∈ g.orders := (mem_sortedCompat.mp (walkFills_mem _ _ p hp)).1
  have hpfresh : p.1.id ≠ n.id := hfresh p.1 hp1
  rw [matchOrders_def]
  split
  · next hrem =>
    constructor
    · intro hfull x hx
      rcases List.mem_append.mp hx with hx | hx
      · exact (hfills p hp).1 hfull x hx
      · rw [List.mem_singleton.mp hx]
        exact fun hcontra => hpfresh hcontra.symm
    · intro hpart
      exact List.mem_append_left _ ((hfills p hp).2 hpart)
  · next hrem =>
    exact ⟨fun hfull x hx => (hfills p hp).1 hfull x hx,
      fun hpart => (hfills p hp).2 hpart⟩

def c5g : GameState :=
  { initGame with
    orders := [{ id := 1, player := "A", side := Side.ask, price := 5, size := 2 },
               { id := 2, player := "C", side := Side.ask, price := 8, size := 1 },
               { id := 4, player := "D", side := Side.ask, price := 6, size := 2 }],
    positions := [("A", zeroPosition), ("C", zeroPosition), ("D", zeroPosition), ("B", zeroPosition)],
    orderIdCounter := 5 }

def c5n : Order := { id := 5, player := "B", side := Side.bid, price := 6, size := 3 }

theorem limit_match_price_time_priority_witness :
    (matchOrders c5g c5n).2
      = [{ id := 1, buyer := "B", seller := "A", price := 5, size := 2 },
         { id := 2, buyer := "B", seller := "D", price := 6, size := 1 }]
    ∧ (sortedCompat c5g c5n).Sorted (oppRel c5n.side) := by
  have h := limit_match_price_time_priority c5g c5n
    (by unfold idsNodup; decide) (by unfold sizePos; decide) (by decide)
  refine ⟨?_, h.2.1⟩
  rw [h.2.2.1]
  have hsorted : sortedCompat c5g c5n
      = [{ id := 1, player := "A", side := Side.ask, price := 5, size := 2 },
         { id := 4, player := "D", side := Side.ask, price := 6, size := 2 }] := by
    simp only [sortedCompat, c5g, c5n, initGame, oppRel, compatB, List.filter,
      List.insertionSort, List.orderedInsert]
    norm_num [priceAscend]
  rw [hsorted]
  norm_num [walkFills, fillsToTrades, c5g, c5n, initGame]

-- ## Rejection behaviour (error-handling contract)

/-- What a rejected request leaves behind: the version and every state
component unchanged, except that the positions map may have gained a single
fresh zero-valued entry. -/
def rejectionUnchanged (e e' : EngineState) : Prop :=
  e'.version = e.version
  ∧ e'.game.orders = e.game.orders
  ∧ e'.game.trades = e.game.trades
  ∧ e'.game.players = e.game.players
  ∧ e'.game.orderIdCounter = e.game.orderIdCounter
  ∧ e'.game.settledPrice = e.game.settledPrice
  ∧ e'.game.turnOrder = e.game.turnOrder
  ∧ e'.game.currentTurnIndex = e.game.currentTurnIndex
  ∧ e'.game.priceHistory = e.game.priceHistory
  ∧ (e'.game.positions = e.game.positions
     ∨ ∃ pl, e'.game.positions = e.game.positions ++ [(pl, zeroPosition)])

lemma rejectionUnchanged_refl (e : EngineState) : rejectionUnchanged e e :=
  ⟨rfl, rfl, rfl, rfl, rfl, rfl, rfl, rfl, rfl, Or.inl rfl⟩

lemma rejectionUnchanged_ensure (e : EngineState) (player : String) :
    rejectionUnchanged e
      { e with game := { e.game with positions := ensurePosition e.game.positions player } } := by
  refine ⟨rfl, rfl, rfl, rfl, rfl, rfl, rfl, rfl, rfl, ?_⟩
  show ensurePosition e.game.positions player = e.game.positions
    ∨ ∃ pl, ensurePosition e.game.positions player = e.game.positions ++ [(pl, zeroPosition)]
  unfold ensurePosition
  split
  · exact Or.inl rfl
  · exact Or.inr ⟨player, rfl⟩

lemma submitLimitOrder_turnViol (e : EngineState) (player : String) (side : Side)
    (price : Rat) (size : Int) (cp : Option String) (hname : player ≠ "")
    (hsize : ¬ size ≤ 0) (hviol : turnViolation e.game player = some cp) :
    submitLimitOrder e player side price size = (.errNotYourTurn cp, e) := by
  unfold submitLimitOrder
  rw [if_neg hname, if_neg hsize, hviol]

lemma submitMarketOrder_turnViol (e : EngineState) (player : String) (side : Side)
    (size : Int) (cp : Option String) (hname : player ≠ "")
    (hsize : ¬ size ≤ 0) (hviol : turnViolation e.game player = some cp) :
    submitMarketOrder e player side size = (.errNotYourTurn cp, e) := by
  unfold submitMarketOrder
  rw [if_neg hname, if_neg hsize, hviol]

lemma cancelPlayerOrders_turnViol (e : EngineState) (player : String)
    (cp : Option String) (hname : player ≠ "")
    (hviol : turnViolation e.game player = some cp) :
    cancelPlayerOrders e player = (.errNotYourTurn cp, e) := by
  unfold cancelPlayerOrders
  rw [if_neg hname, hviol]

lemma submitLimitOrder_turnOk (e : EngineState) (player : String) (side : Side)
    (price : Rat) (size : Int) (g1 : GameState)
    (hg1 : g1 = { e.game with positions := ensurePosition e.game.positions player })
    (hname : player ≠ "") (hsize : ¬ size ≤ 0)
    (hturn : turnViolation e.game player = none) :
    submitLimitOrder e player side price size =
      (if price ≤ 0 then (.errInvalidPrice, { e with game := g1 })
       else if price.den ≠ 1 then (.errPriceNotInteger, { e with game := g1 })
       else if !canPlaceOrder g1.orders side price then
         (.errTighten (bestBid g1.orders) (bestAsk g1.orders), { e with game := g1 })
       else (.ok (matchOrders { g1 with orderIdCounter := g1.orderIdCounter + 1 }
              { id := g1.orderIdCounter, player := player, side := side,
                price := price, size := size }).2,
          { game := advanceTurn (matchOrders { g1 with orderIdCounter := g1.orderIdCounter + 1 }
              { id := g1.orderIdCounter, player := player, side := side,
                price := price, size := size }).1,
            version := e.version + 1 })) := by
  subst hg1
  unfold submitLimitOrder
  rw [if_neg hname, if_neg hsize, hturn]

/-- C2 (amended): every rejected operation leaves `version` and all state
components unchanged, except that a rejected submitOrder which has already
passed the turn gate may append a fresh zero position for the submitting
player (the source runs `ensurePosition` before the price, admission and
liquidity checks). -/
theorem rejection_leaves_state (e : EngineState) (op : Op)
    (hsz : sizePos e.game.orders)
    (hrej : ((applyOp e op).1).isReject = true) :
    rejectionUnchanged e (applyOp e op).2 := by
  cases op with
  | addPlayer name count =>
    simp only [applyOp] at hrej ⊢
    by_cases h : name = "" ∨ count < 0
    · rw [show addPlayer e name count = (.errInvalidInput, e) from by
        unfold addPlayer; rw [if_pos h]]
      exact rejectionUnchanged_refl e
    · exfalso
      have : (addPlayer e name count).1 = .okUnit := by
        unfold addPlayer
        rw [if_neg h]
      rw [this] at hrej
      simp [Outcome.isReject, Outcome.isOk] at hrej
  | toggleReveal name =>
    simp only [applyOp] at hrej ⊢
    by_cases h1 : name = ""
    · rw [show toggleReveal e name = (.errInvalidPlayer, e) from by
        unfold toggleReveal; rw [if_pos h1]]
      exact rejectionUnchanged_refl e
    · rcases h2 : lookupPlayer e.game.players name with _ | pl
      · rw [show toggleReveal e name = (.errInvalidPlayer, e) from by
          unfold toggleReveal; rw [if_neg h1, h2]]
        exact rejectionUnchanged_refl e
      · exfalso
        have : (toggleReveal e name).1 = .okUnit := by
          unfold toggleReveal
          rw [if_neg h1, h2]
        rw [this] at hrej
        simp [Outcome.isReject, Outcome.isOk] at hrej
  | submitLimit player side price size =>
    simp only [applyOp] at hrej ⊢
    by_cases h1 : player = ""
    · rw [show submitLimitOrder e player side price size = (.errInvalidSideName, e) from by
        unfold submitLimitOrder; rw [if_pos h1]]
      exact rejectionUnchanged_refl e
    by_cases h2 : size ≤ 0
    · rw [show submitLimitOrder e player side price size = (.errInvalidSize, e) from by
        unfold submitLimitOrder; rw [if_neg h1, if_pos h2]]
      exact rejectionUnchanged_refl e
    rcases hviol : turnViolation e.game player with _ | cp
    · have hred := submitLimitOrder_turnOk e player side price size
        { e.game with positions := ensurePosition e.game.positions player }
        rfl h1 h2 hviol
      rw [hred] at hrej ⊢
      by_cases h3 : price ≤ 0
      · rw [if_pos h3]
        exact rejectionUnchanged_ensure e player
      rw [if_neg h3] at hrej ⊢
      by_cases h4 : price.den ≠ 1
      · rw [if_pos h4]
        exact rejectionUnchanged_ensure e player
      rw [if_neg h4] at hrej ⊢
      by_cases h5 : (!canPlaceOrder ({ e.game with
          positions := ensurePosition e.game.positions player } : GameState).orders
          side price) = true
      · rw [if_pos h5]
        exact rejectionUnchanged_ensure e player
      · rw [if_neg h5] at hrej
        simp [Outcome.isReject, Outcome.isOk] at hrej
    · rw [submitLimitOrder_turnViol e player side price size cp h1 h2 hviol]
      exact rejectionUnchanged_refl e
  | submitMarket player side size =>
    simp only [applyOp] at hrej ⊢
    by_cases h1 : player = ""
    · rw [show submitMarketOrder e player side size = (.errInvalidSideName, e) from by
        unfold submitMarketOrder; rw [if_pos h1]]
      exact rejectionUnchanged_refl e
    by_cases h2 : size ≤ 0
    · rw [show submitMarketOrder e player side size = (.errInvalidSize, e) from by
        unfold submitMarketOrder; rw [if_neg h1, if_pos h2]]
      exact rejectionUnchanged_refl e
    rcases hviol : turnViolation e.game player with _ | cp
    · have hred := submitMarketOrder_turnOk e player side size
        { e.game with positions := ensurePosition e.game.positions player }
        rfl h1 (not_le.mp h2) hviol
      rw [hred] at hrej ⊢
      by_cases hcond : 0 < (executeMarketOrder
          { e.game with positions := ensurePosition e.game.positions player }
          player side size).remaining
        ∧ size - (executeMarketOrder
          { e.game with positions := ensurePosition e.game.positions player }
          player side size).remaining = 0
      · rw [if_pos hcond]
        have hrem : (executeMarketOrder
            { e.game with positions := ensurePosition e.game.positions player }
            player side size).remaining = size := by omega
        have hz := executeMarketOrder_zero_fill
          { e.game with positions := ensurePosition e.game.positions player }
          player side size hsz (not_le.mp h2) hrem
        rw [hz]
        exact rejectionUnchanged_ensure e player
      · rw [if_neg hcond] at hrej
        simp [Outcome.isReject, Outcome.isOk] at hrej
    · rw [submitMarketOrder_turnViol e player side size cp h1 h2 hviol]
      exact rejectionUnchanged_refl e
  | cancelOrders player =>
    simp only [applyOp] at hrej ⊢
    by_cases h1 : player = ""
    · rw [show cancelPlayerOrders e player = (.errMissingPlayerName, e) from by
        unfold cancelPlayerOrders; rw [if_pos h1]]
      exact rejectionUnchanged_refl e
    rcases hviol : turnViolation e.game player with _ | cp
    · exfalso
      have : (cancelPlayerOrders e player).1
          = .okCancelled (e.game.orders.length
              - (e.game.orders.filter (fun o => o.player != player)).length) := by
        unfold cancelPlayerOrders
        rw [if_neg h1, hviol]
      rw [this] at hrej
      simp [Outcome.isReject, Outcome.isOk] at hrej
    · rw [cancelPlayerOrders_turnViol e player cp h1 hviol]
      exact rejectionUnchanged_refl e
  | cancelOrder orderId =>
    simp only [applyOp] at hrej ⊢
    by_cases h1 : orderId = 0
    · rw [show cancelOrderById e orderId = (.errMissingOrderId, e) from by
        unfold cancelOrderById; rw [if_pos h1]]
      exact rejectionUnchanged_refl e
    by_cases h2 : e.game.orders.length
        - (e.game.orders.filter (fun o => o.id != orderId)).length = 0
    · have heq2 : e.game.orders.filter (fun o => o.id != orderId) = e.game.orders := by
        have hle := List.length_filter_le (fun o => o.id != orderId) e.game.orders
        exact List.Sublist.eq_of_length (List.filter_sublist _) (by omega)
      rw [show cancelOrderById e orderId = (.errOrderNotFound,
          { e with game := { e.game with
              orders := e.game.orders.filter (fun o => o.id != orderId) } }) from by
        unfold cancelOrderById; rw [if_neg h1, if_pos h2]]
      exact ⟨rfl, heq2, rfl, rfl, rfl, rfl, rfl, rfl, rfl, Or.inl rfl⟩
    · exfalso
      have : (cancelOrderById e orderId).1
          = .okCancelled (e.game.orders.length
              - (e.game.orders.filter (fun o => o.id != orderId)).length) := by
        unfold cancelOrderById
        rw [if_neg h1, if_neg h2]
      rw [this] at hrej
      simp [Outcome.isReject, Outcome.isOk] at hrej
  | reset =>
    exfalso
    simp only [applyOp, resetGame] at hrej
    simp [Outcome.isReject, Outcome.isOk] at hrej
  | settle =>
    simp only [applyOp] at hrej ⊢
    rcases hset : settleContract e.game with _ | gp
    · rw [show settleHandler e = (.errNoPlayers, e) from by
        unfold settleHandler; rw [hset]]
      exact rejectionUnchanged_refl e
    · exfalso
      have : (settleHandler e).1 = .okSettled gp.2 := by
        unfold settleHandler
        rw [hset]
      rw [this] at hrej
      simp [Outcome.isReject, Outcome.isOk] at hrej
  | setTurnOrder lst =>
    simp only [applyOp] at hrej ⊢
    rcases hfind : lst.find? (fun n => (lookupPlayer e.game.players n).isNone) with _ | nm
    · exfalso
      have : (setTurnOrder e lst).1 = .okUnit := by
        unfold setTurnOrder
        rw [hfind]
      rw [this] at hrej
      simp [Outcome.isReject, Outcome.isOk] at hrej
    · rw [show setTurnOrder e lst = (.errPlayerNotFound nm, e) from by
        unfold setTurnOrder; rw [hfind]]
      exact rejectionUnchanged_refl e
  | setCurrentTurn player =>
    simp only [applyOp] at hrej ⊢
    rcases player with _ | nm
    · exfalso
      simp [setCurrentTurn, Outcome.isReject, Outcome.isOk] at hrej
    · by_cases hidx : e.game.turnOrder.indexOf nm < e.game.turnOrder.length
      · exfalso
        have : (setCurrentTurn e (some nm)).1
            = .okCurrentTurn (e.game.turnOrder.indexOf nm : Int) := by
          simp only [setCurrentTurn]
          rw [if_pos hidx]
        rw [this] at hrej
        simp [Outcome.isReject, Outcome.isOk] at hrej
      · rw [show setCurrentTurn e (some nm) = (.errPlayerNotInTurnOrder nm, e) from by
          simp only [setCurrentTurn]; rw [if_neg hidx]]
        exact rejectionUnchanged_refl e
  | startTurns =>
    simp only [applyOp] at hrej ⊢
    by_cases h : e.game.turnOrder.length = 0
    · rw [show startTurns e = (.errEmptyTurnOrder, e) from by
        unfold startTurns; rw [if_pos h]]
      exact rejectionUnchanged_refl e
    · exfalso
      have : (startTurns e).1 = .okCurrentPlayer (e.game.turnOrder.headD "") := by
        unfold startTurns
        rw [if_neg h]
      rw [this] at hrej
      simp [Outcome.isReject, Outcome.isOk] at hrej
  | stopTurns =>
    exfalso
    simp only [applyOp, stopTurns] at hrej
    simp [Outcome.isReject, Outcome.isOk] at hrej

def c2state : EngineState :=
  { game := { initGame with
      orders := [{ id := 1, player := "A", side := Side.bid, price := 5, size := 1 }],
      positions := [("A", zeroPosition)],
      orderIdCounter := 2 },
    version := 7 }

lemma c2state_eval : applyOp c2state (Op.submitLimit "B" Side.bid 5 1)
    = (Outcome.errTighten (some 5) none,
      { game := { c2state.game with
          positions := c2state.game.positions ++ [("B", zeroPosition)] },
        version := 7 }) := by
  simp only [applyOp, submitLimitOrder, turnViolation, ensurePosition, lookupPos,
    canPlaceOrder, bestBid, bestAsk, bidsSorted, asksSorted, List.insertionSort,
    List.orderedInsert, List.filter, List.find?, List.head?, Option.map, Option.isSome,
    c2state, initGame, zeroPosition]
  norm_num [show (("A" : String) == "B") = false from rfl,
    show ¬(("B" : String) = "") from by decide]

/-- C2 (counterexample): a tighten-or-trade rejection is not detected before
all state mutation — `ensurePosition` has already run, so the rejected
submit leaves the positions map with a fresh zero entry for the submitter
("B"), contradicting "the engine state — including the positions map — is
left exactly unchanged".  The version is indeed not incremented. -/
theorem rejected_order_adds_position :
    (applyOp c2state (Op.submitLimit "B" Side.bid 5 1)).1 = Outcome.errTighten (some 5) none
    ∧ (applyOp c2state (Op.submitLimit "B" Side.bid 5 1)).2.game.positions
        = c2state.game.positions ++ [("B", zeroPosition)]
    ∧ (applyOp c2state (Op.submitLimit "B" Side.bid 5 1)).2.game.positions
        ≠ c2state.game.positions
    ∧ (applyOp c2state (Op.submitLimit "B" Side.bid 5 1)).2.version = c2state.version := by
  refine ⟨by rw [c2state_eval], by rw [c2state_eval], ?_, by rw [c2state_eval]; rfl⟩
  rw [c2state_eval]
  intro hcontra
  have := congrArg List.length hcontra
  simp [c2state, initGame] at this

theorem rejection_leaves_state_witness :
    sizePos c2state.game.orders
    ∧ rejectionUnchanged c2state (applyOp c2state (Op.submitLimit "B" Side.bid 5 1)).2 := by
  refine ⟨by unfold sizePos; decide, ?_⟩
  apply rejection_leaves_state
  · unfold sizePos; decide
  · rw [c2state_eval]
    rfl

-- ## The documented example scenario (Alice secret 2, Bob secret 3)

def c8e2 : EngineState :=
  { game := { initGame with
      players := [("Alice", { siblingCount := 2, revealed := false }),
                  ("Bob", { siblingCount := 3, revealed := false })],
      positions := [("Alice", zeroPosition), ("Bob", zeroPosition)] },
    version := 3 }

def c8e3 : EngineState :=
  { game := { c8e2.game with
      orders := [{ id := 1, player := "Alice", side := Side.ask, price := 5, size := 2 }],
      orderIdCounter := 2 },
    version := 4 }

def c8e4 : EngineState :=
  { game := { c8e3.game with
      orders := [{ id := 1, player := "Alice", side := Side.ask, price := 5, size := 2 },
                 { id := 2, player := "Bob", side := Side.bid, price := 4, size := 1 }],
      orderIdCounter := 3 },
    version := 5 }

def c8e6 : EngineState :=
  { game := { c8e4.game with
      orders := [{ id := 1, player := "Alice", side := Side.ask, price := 5, size := 1 },
                 { id := 2, player := "Bob", side := Side.bid, price := 4, size := 1 }],
      trades := [{ id := 1, buyer := "Bob", seller := "Alice", price := 5, size := 1 }],
      positions := [("Alice", { quantity := -1, totalCost := -5, realizedPnL := 0, cash := 5 }),
                    ("Bob", { quantity := 1, totalCost := 5, realizedPnL := 0, cash := -5 })],
      orderIdCounter := 4 },
    version := 6 }

lemma c8_setup :
    (applyOp (applyOp initState (Op.addPlayer "Alice" 2)).2 (Op.addPlayer "Bob" 3)).2
      = c8e2 := by
  simp only [applyOp, addPlayer, setPlayerEntry, lookupPos, initState, initGame,
    List.find?, Option.map, Option.isSome, zeroPosition]
  norm_num [c8e2, initGame, zeroPosition,
    show ¬(("Alice" : String) = "") from by decide,
    show ¬(("Bob" : String) = "") from by decide,
    show ¬(("Alice" : String) = "Bob") from by decide,
    show (("Alice" : String) == "Bob") = false from rfl,
    show (("Bob" : String) == "Alice") = false from rfl]

lemma c8_step1 : applyOp c8e2 (Op.submitLimit "Alice" Side.ask 5 2)
    = (Outcome.ok [], c8e3) := by
  simp only [applyOp, submitLimitOrder, turnViolation, ensurePosition, lookupPos,
    setFirstPos, canPlaceOrder, bestBid, bestAsk, bidsSorted, asksSorted, matchOrders,
    matchStep, emittedTrade, bookAfterFill, ledgerAfterFill, updatePosition, applyPosition,
    advanceTurn, capturePriceHistory, getMidPrice, compatB, oppRel, priceAscend,
    priceDescend, List.insertionSort, List.orderedInsert, List.filter, List.find?,
    List.head?, List.foldl, List.map, Option.map, Option.isSome, zeroPosition,
    c8e2, c8e3, initGame]
  norm_num [show (("Alice" : String) == "Alice") = true from rfl,
    show ¬(("Alice" : String) = "") from by decide]

lemma c8_step2 : applyOp c8e3 (Op.submitLimit "Bob" Side.bid 4 1)
    = (Outcome.ok [], c8e4) := by
  simp only [applyOp, submitLimitOrder, turnViolation, ensurePosition, lookupPos,
    setFirstPos, canPlaceOrder, bestBid, bestAsk, bidsSorted, asksSorted, matchOrders,
    matchStep, emittedTrade, bookAfterFill, ledgerAfterFill, updatePosition, applyPosition,
    advanceTurn, capturePriceHistory, getMidPrice, compatB, oppRel, priceAscend,
    priceDescend, List.insertionSort, List.orderedInsert, List.filter, List.find?,
    List.head?, List.foldl, List.map, Option.map, Option.isSome, zeroPosition,
    c8e2, c8e3, c8e4, initGame]
  norm_num [show (("Alice" : String) == "Bob") = false from rfl,
    show (("Bob" : String) == "Bob") = true from rfl,
    show ¬(("Bob" : String) = "") from by decide]

lemma c8_step3 : applyOp c8e4 (Op.submitLimit "Bob" Side.bid (24/5) 1)
    = (Outcome.errPriceNotInteger, c8e4) := by
  simp only [applyOp, submitLimitOrder, turnViolation, ensurePosition, lookupPos,
    List.find?, Option.map, Option.isSome, c8e2, c8e3, c8e4, initGame, zeroPosition]
  norm_num [show (("Alice" : String) == "Bob") = false from rfl,
    show (("Bob" : String) == "Bob") = true from rfl,
    show ¬(("Bob" : String) = "") from by decide]

lemma c8_step4 : applyOp c8e4 (Op.submitLimit "Bob" Side.bid 5 1)
    = (Outcome.ok [{ id := 1, buyer := "Bob", seller := "Alice", price := 5, size := 1 }],
       c8e6) := by
  simp only [applyOp, submitLimitOrder, turnViolation, ensurePosition, lookupPos,
    setFirstPos, canPlaceOrder, bestBid, bestAsk, bidsSorted, asksSorted, matchOrders,
    matchStep, emittedTrade, bookAfterFill, ledgerAfterFill, updatePosition, applyPosition,
    advanceTurn, capturePriceHistory, getMidPrice, compatB, oppRel, priceAscend,
    priceDescend, List.insertionSort, List.orderedInsert, List.filter, List.find?,
    List.head?, List.foldl, List.map, Option.map, Option.isSome, zeroPosition,
    c8e2, c8e3, c8e4, c8e6, initGame]
  norm_num [show (("Alice" : String) == "Bob") = false from rfl,
    show (("Bob" : String) == "Bob") = true from rfl,
    show (("Bob" : String) == "Alice") = false from rfl,
    show (("Alice" : String) == "Alice") = true from rfl,
    show ¬(("Bob" : String) = "") from by decide]

/-- C8 (counterexample): in the documented scenario — empty book, Alice asks
2@5.00 — Bob's bid of 1 at 4.00 is NOT rejected with the tighten-or-trade
admission rejection (the bid side is empty, so `canPlaceOrder` admits it):
the request succeeds with no trades and the bid rests in the book. -/
theorem scenario_bid_four_admitted :
    (applyOp c8e3 (Op.submitLimit "Bob" Side.bid 4 1)).1 = Outcome.ok []
    ∧ Outcome.ok ([] : List Trade) ≠ Outcome.errTighten none (some 5)
    ∧ { id := 2, player := "Bob", side := Side.bid, price := 4, size := 1 }
        ∈ (applyOp c8e3 (Op.submitLimit "Bob" Side.bid 4 1)).2.game.orders := by
  rw [c8_step2]
  refine ⟨rfl, by simp, ?_⟩
  show _ ∈ c8e4.game.orders
  exact List.mem_cons_of_mem _ (List.mem_cons_self _ _)

/-- C8 (amended): the actual run of the documented scenario on the
integer-price variant: after Alice's ask of 2@5.00, Bob's bid of 1@4.00 is
admitted and rests (the bid side is empty); Bob's bid of 1@4.80 is rejected
with the integer-price validation error (price 24/5 is not an integer) and
leaves the state unchanged; Bob's bid of 1@5.00 is then admitted and produces
exactly one trade {buyer: Bob, seller: Alice, price: 5.00, size: 1}. -/
theorem scenario_actual_run :
    (applyOp (applyOp initState (Op.addPlayer "Alice" 2)).2 (Op.addPlayer "Bob" 3)).2 = c8e2
    ∧ applyOp c8e2 (Op.submitLimit "Alice" Side.ask 5 2) = (Outcome.ok [], c8e3)
    ∧ applyOp c8e3 (Op.submitLimit "Bob" Side.bid 4 1) = (Outcome.ok [], c8e4)
    ∧ { id := 2, player := "Bob", side := Side.bid, price := 4, size := 1 }
        ∈ c8e4.game.orders
    ∧ applyOp c8e4 (Op.submitLimit "Bob" Side.bid (24/5) 1)
        = (Outcome.errPriceNotInteger, c8e4)
    ∧ applyOp c8e4 (Op.submitLimit "Bob" Side.bid 5 1)
        = (Outcome.ok [{ id := 1, buyer := "Bob", seller := "Alice", price := 5, size := 1 }],
           c8e6) :=
  ⟨c8_setup, c8_step1, c8_step2,
    List.mem_cons_of_mem _ (List.mem_cons_self _ _), c8_step3, c8_step4⟩
